import Mathlib

/-!
# LINK_QUIZ: account directory, quiz catalog and attempt ledger

A shallow embedding of `src/LINK_QUIZ/main.cpp`.

The program keeps all of its state in a MySQL database, so the embedding has two layers.

* The relational store: one record type per table of `initializeDatabase`, a `Database`
  holding the four tables as row lists (in insertion order) together with the
  `AUTO_INCREMENT` counters, and one function per SQL statement the program sends.
  A statement fails exactly when it violates a constraint declared in the schema
  (`PRIMARY KEY`, `UNIQUE`, `FOREIGN KEY`, `ENUM`, the widths `VARCHAR(50)` and
  `VARCHAR(100)` of `users`, the server being in its default strict mode);
  `ON DELETE CASCADE` removes the referencing rows together with the deleted row.
  Two things the schema leaves to the server are fields of the `Database`: the collation
  under which `username` and `password` are compared, and the order in which a `SELECT`
  without `ORDER BY` returns rows of `users`.
* The C++ member functions of `DatabaseManager` and the menu code that feeds them, written
  over those statements and keeping the source's names and control flow.

Modelling conventions.

* `int` and SQL `INT` are `Int`; the 32 bit range is not modelled.
* SQL `=` on `users.username` and `users.password` is equality under the collation of
  the database (`Collation.weight`): exact under a binary collation, blind to the case of
  the letters `A` to `Z` under the collation of a server as installed. The role, a member
  of the `ENUM`, is compared exactly, and so is every comparison made in C++.
  `ORDER BY username` follows the order of `String`. Collations that compare still more
  strings equal (accents, trailing spaces) are not among the modelled ones; the properties
  are stated through `Database.sqlEq`, and their proofs use only that it is equality of
  keys.
* A username or password longer than its column is refused. The server cuts excess
  trailing spaces with a warning instead; a value ending in spaces beyond the width is
  treated like any other value that is too long. The widths of the columns of `quizzes`
  and `questions` are covered by the flags of `addQuizOn`.
* `escapeString` followed by the SQL parser is the identity on the value, so bound values
  are passed directly.
* The column `users.score` is nullable in the schema, but the only `INSERT` leaves its
  default `0` and the only `UPDATE` adds an integer, so it is an `Int`. The column
  `student_quizzes.completed_at` (a timestamp) is left out.
* The connection stays up: `mysql_query` returns an error only for a constraint violation.
  Where a property is about statements that fail for another reason, the function is
  given a second time with one flag for every statement (`addQuizOn`), and shown to be the
  first one when no statement fails.
* Input typed at a prompt is a list of the values read there; a loop that finds no
  accepted value in its list does not end (`Run.waitsForInput`, or `none`).
* Reading a `vector` past its end is undefined behaviour; a function that can do so returns
  an `Option`, and `none` stands for that read.
-/

namespace LinkQuiz

/-! ## The relational store -/

/-- Row of table `users`. -/
structure UserRow where
  id : Int
  username : String
  password : String
  role : String
  score : Int
deriving DecidableEq, Repr

/-- Row of table `quizzes`. -/
structure QuizRow where
  id : Int
  title : String
  description : String
  time_limit : Option Int
deriving DecidableEq, Repr

/-- Row of table `questions`; `option3` and `option4` are the nullable columns. -/
structure QuestionRow where
  id : Int
  quiz_id : Int
  text : String
  option1 : String
  option2 : String
  option3 : Option String
  option4 : Option String
  correct_option : Int
deriving DecidableEq, Repr

/-- Row of table `student_quizzes`, primary key `(student_id, quiz_id)`. -/
structure AttemptRow where
  student_id : Int
  quiz_id : Int
  score : Int
deriving DecidableEq, Repr

/-- Collation of the columns `users.username` and `users.password`. The schema declares
none, so the columns take the one of the server: `caseInsensitive` on a server as
installed, `binary` on a server set up to compare byte by byte. -/
inductive Collation where
  | binary
  | caseInsensitive
deriving DecidableEq, Repr

/-- The key under which a collation compares a string: two strings are equal for SQL `=`
when their keys are equal. The case-insensitive collation does not tell a capital letter
`A` to `Z` from the small one. -/
def Collation.weight : Collation → String → String
  | Collation.binary, s => s
  | Collation.caseInsensitive, s => String.mk (s.data.map Char.toLower)

/-- Order in which the server returns the rows of a `SELECT` on `users` that has no
`ORDER BY`: the order of the table (the primary key), or the order of the index
`username_role_unique`, which a search by username walks. -/
inductive RowOrder where
  | primaryKey
  | uniqueIndex
deriving DecidableEq, Repr

/-- The rows matched by a search for one username, in the order the server returns them.
In the index `username_role_unique` the rows of one username stand by role, and the
members of `ENUM('admin', 'student')` are ordered as declared: the rows with role "admin"
come before the others. -/
def RowOrder.scan : RowOrder → List UserRow → List UserRow
  | RowOrder.primaryKey, rows => rows
  | RowOrder.uniqueIndex, rows =>
    rows.filter (fun u => decide (u.role = "admin")) ++
      rows.filter (fun u => !decide (u.role = "admin"))

/-- The database: the four tables, the `AUTO_INCREMENT` counters of the three tables that
have one, and the two settings the schema leaves to the server. -/
structure Database where
  users : List UserRow
  quizzes : List QuizRow
  questions : List QuestionRow
  student_quizzes : List AttemptRow
  users_auto : Int
  quizzes_auto : Int
  questions_auto : Int
  collation : Collation
  rowOrder : RowOrder
deriving DecidableEq, Repr

/-- The database right after `initializeDatabase` ran for the first time, on a server as
installed: case-insensitive collation, searches by username through the index. -/
def emptyDatabase : Database :=
  { users := [], quizzes := [], questions := [], student_quizzes := [],
    users_auto := 1, quizzes_auto := 1, questions_auto := 1,
    collation := Collation.caseInsensitive, rowOrder := RowOrder.uniqueIndex }

/-- SQL `=` between a stored string and a bound value of the columns `username` and
`password`. -/
def Database.sqlEq (db : Database) (stored value : String) : Prop :=
  db.collation.weight stored = db.collation.weight value

instance Database.sqlEqDecidable (db : Database) (stored value : String) :
    Decidable (db.sqlEq stored value) :=
  inferInstanceAs (Decidable (db.collation.weight stored = db.collation.weight value))

/-- Primary key of a `student_quizzes` row. -/
def AttemptRow.key (r : AttemptRow) : Int × Int := (r.student_id, r.quiz_id)

/-- The pair constrained by `username_role_unique`. -/
def UserRow.identity (u : UserRow) : String × String := (u.username, u.role)

/-- Some row of `users` has this id. -/
def Database.hasUser (db : Database) (id : Int) : Bool :=
  db.users.any (fun u => decide (u.id = id))

/-- Some row of `quizzes` has this id. -/
def Database.hasQuiz (db : Database) (id : Int) : Bool :=
  db.quizzes.any (fun q => decide (q.id = id))

/-- Some row of `student_quizzes` has this primary key. -/
def Database.hasAttempt (db : Database) (studentId quizId : Int) : Bool :=
  db.student_quizzes.any (fun r => decide (r.key = (studentId, quizId)))

/-- Value of `users.score` in the first row with this id, if there is one. -/
def Database.scoreOf (db : Database) (id : Int) : Option Int :=
  (db.users.find? (fun u => decide (u.id = id))).map (fun u => u.score)

/-! ### Statements on `student_quizzes` and `users.score` -/

/-- Statement of `recordQuizAttempt`:
`INSERT INTO student_quizzes (student_id, quiz_id, score) VALUES (..)
 ON DUPLICATE KEY UPDATE score = VALUES(score)`.
With a row of that key present its score is replaced; otherwise a row is inserted, which
the two foreign keys allow only when the user and the quiz exist. -/
def sqlUpsertAttempt (db : Database) (studentId quizId score : Int) : Option Database :=
  if db.hasAttempt studentId quizId then
    some { db with
      student_quizzes := db.student_quizzes.map (fun r =>
        if r.key = (studentId, quizId) then { r with score := score } else r) }
  else if db.hasUser studentId && db.hasQuiz quizId then
    some { db with
      student_quizzes := db.student_quizzes ++ [⟨studentId, quizId, score⟩] }
  else
    none

/-- Effect of `SET score = score + .. WHERE id = ..` on one row of `users`. -/
def addToScore (studentId score : Int) (u : UserRow) : UserRow :=
  if u.id = studentId then { u with score := u.score + score } else u

/-- Statement of `recordQuizAttempt`: `UPDATE users SET score = score + .. WHERE id = ..`. -/
def sqlAddScore (db : Database) (studentId score : Int) : Database :=
  { db with users := db.users.map (addToScore studentId score) }

/-! ### Statements on `users` -/

/-- Values of the column type `ENUM('admin', 'student')` of `users.role`. -/
def roleEnum : List String := ["admin", "student"]

/-- Statement of `registerUser`:
`SELECT id FROM users WHERE username = .. AND role = ..`. -/
def sqlSelectIdentity (db : Database) (username role : String) : List Int :=
  (db.users.filter (fun u => decide (db.sqlEq u.username username ∧ u.role = role))).map
    (fun u => u.id)

/-- Statement of `registerUser`:
`INSERT INTO users (username, password, role) VALUES (..)`.
The id comes from the counter and `score` takes its default `0`. The insert is refused for
a username of more than 50 or a password of more than 100 characters (`VARCHAR(50)`,
`VARCHAR(100)`), for a role outside the enumeration, for an id already in use (primary
key) and for a `(username, role)` pair already present (`username_role_unique`, the
username compared under the collation). -/
def sqlInsertUser (db : Database) (username password role : String) : Option Database :=
  if username.length ≤ 50 ∧ password.length ≤ 100 ∧
      role ∈ roleEnum ∧ db.hasUser db.users_auto = false ∧
      db.users.all (fun u => !decide (db.sqlEq u.username username ∧ u.role = role)) then
    some { db with
      users := db.users ++ [⟨db.users_auto, username, password, role, 0⟩]
      users_auto := db.users_auto + 1 }
  else
    none

/-- Statement of `deleteUserAccount`: `DELETE FROM users WHERE ..`, with the cascade of
`student_quizzes.student_id`. Returns the number of deleted `users` rows
(`mysql_affected_rows`) and the new database. -/
def sqlDeleteUsers (db : Database) (cond : UserRow → Bool) : Nat × Database :=
  let deleted := db.users.filter cond
  (deleted.length,
    { db with
      users := db.users.filter (fun u => !cond u)
      student_quizzes := db.student_quizzes.filter (fun r =>
        !deleted.any (fun u => decide (u.id = r.student_id))) })

/-- Statement of `displayStudentRanks`: the order of
`ORDER BY score DESC, username ASC`. -/
def rankBefore (a b : UserRow) : Prop :=
  b.score < a.score ∨ (a.score = b.score ∧ a.username ≤ b.username)

instance rankBeforeDecidable : DecidableRel rankBefore :=
  fun a b => inferInstanceAs
    (Decidable (b.score < a.score ∨ (a.score = b.score ∧ a.username ≤ b.username)))

instance rankBefore_total : IsTotal UserRow rankBefore where
  total a b := by
    unfold rankBefore
    rcases lt_trichotomy a.score b.score with h | h | h
    · exact Or.inr (Or.inl h)
    · rcases le_total a.username b.username with hu | hu
      · exact Or.inl (Or.inr ⟨h, hu⟩)
      · exact Or.inr (Or.inr ⟨h.symm, hu⟩)
    · exact Or.inl (Or.inl h)

instance rankBefore_trans : IsTrans UserRow rankBefore where
  trans a b c := by
    unfold rankBefore
    rintro (h1 | ⟨h1, u1⟩) (h2 | ⟨h2, u2⟩)
    · exact Or.inl (lt_trans h2 h1)
    · exact Or.inl (h2 ▸ h1)
    · exact Or.inl (h1 ▸ h2)
    · exact Or.inr ⟨h1.trans h2, le_trans u1 u2⟩

/-- Statement of `displayStudentRanks`:
`SELECT id, username, score FROM users WHERE role = 'student'
 ORDER BY score DESC, username ASC`. -/
def sqlSelectLeaderboard (db : Database) : List UserRow :=
  (db.users.filter (fun u => decide (u.role = "student"))).insertionSort rankBefore

/-! ### Statements on `quizzes` and `questions` -/

/-- Some row of `questions` has this id. -/
def Database.hasQuestion (db : Database) (id : Int) : Bool :=
  db.questions.any (fun q => decide (q.id = id))

/-- Statement of `addQuiz`: `INSERT INTO quizzes (title, description) VALUES (..)`;
`time_limit` stays `NULL`. -/
def sqlInsertQuiz (db : Database) (title description : String) : Option Database :=
  if db.hasQuiz db.quizzes_auto = false then
    some { db with
      quizzes := db.quizzes ++ [⟨db.quizzes_auto, title, description, none⟩]
      quizzes_auto := db.quizzes_auto + 1 }
  else
    none

/-- Statement of `addQuestion`: `INSERT INTO questions (quiz_id, text, option1, option2,
option3, option4, correct_option) VALUES (..)`; refused when the quiz does not exist
(foreign key) or the id is in use (primary key). -/
def sqlInsertQuestion (db : Database) (quizId : Int) (text option1 option2 : String)
    (option3 option4 : Option String) (correctOption : Int) : Option Database :=
  if db.hasQuiz quizId ∧ db.hasQuestion db.questions_auto = false then
    some { db with
      questions := db.questions ++
        [⟨db.questions_auto, quizId, text, option1, option2, option3, option4, correctOption⟩]
      questions_auto := db.questions_auto + 1 }
  else
    none

/-- Statement of `deleteQuiz`: `DELETE FROM quizzes WHERE id = ..`, with the cascades of
`questions.quiz_id` and `student_quizzes.quiz_id`. -/
def sqlDeleteQuiz (db : Database) (quizId : Int) : Database :=
  let deleted := db.quizzes.filter (fun q => decide (q.id = quizId))
  { db with
    quizzes := db.quizzes.filter (fun q => !decide (q.id = quizId))
    questions := db.questions.filter (fun r =>
      !deleted.any (fun q => decide (q.id = r.quiz_id)))
    student_quizzes := db.student_quizzes.filter (fun r =>
      !deleted.any (fun q => decide (q.id = r.quiz_id))) }

/-- Statement of `deleteQuestion`: `DELETE FROM questions WHERE id = ..`. -/
def sqlDeleteQuestion (db : Database) (questionId : Int) : Database :=
  { db with questions := db.questions.filter (fun r => !decide (r.id = questionId)) }

/-! ## The C++ classes -/

/-- Class `Question`. -/
structure Question where
  id : Int
  text : String
  options : List String
  correctOption : Int
  quizId : Int
deriving DecidableEq, Repr

/-- Class `Quiz`. -/
structure Quiz where
  id : Int
  title : String
  description : String
  questions : List Question
deriving DecidableEq, Repr

/-- Struct `UserRole`. -/
structure UserRole where
  id : Int
  role : String
deriving DecidableEq, Repr

/-! ## `DatabaseManager` -/

/-- Member `DatabaseManager::registerUser`: look for the `(username, role)` pair, refuse
when it is there, insert otherwise. -/
def registerUser (db : Database) (username password role : String) : Bool × Database :=
  let result := sqlSelectIdentity db username role
  if result.length > 0 then
    (false, db)
  else
    match sqlInsertUser db username password role with
    | some db1 => (true, db1)
    | none => (false, db)

/-- Member `DatabaseManager::addQuestion`. The query text is built from
`getOptions()[0]` and `getOptions()[1]` before anything else happens; with fewer than two
options that read is past the end of the vector (`none`). Options three and four are
`NULL` when absent, further options are not looked at. -/
def addQuestion (db : Database) (quizId : Int) (question : Question) :
    Option (Bool × Database) :=
  match question.options[0]?, question.options[1]? with
  | some option1, some option2 =>
    let option3 := if question.options.length > 2 then question.options[2]? else none
    let option4 := if question.options.length > 3 then question.options[3]? else none
    match sqlInsertQuestion db quizId question.text option1 option2 option3 option4
        question.correctOption with
    | some db1 => some (true, db1)
    | none => some (false, db)
  | _, _ => none

/-- The loop `for (const auto& question : quiz.getQuestions()) addQuestion(quizId, question);`
of `addQuiz`; the result of every `addQuestion` is dropped. -/
def addQuestions (db : Database) (quizId : Int) : List Question → Option Database
  | [] => some db
  | question :: rest =>
    match addQuestion db quizId question with
    | none => none
    | some (_, db1) => addQuestions db1 quizId rest

/-- Member `DatabaseManager::addQuiz`: insert the quiz row, take its id from
`mysql_insert_id`, add the questions, return `true`. -/
def addQuiz (db : Database) (quiz : Quiz) : Option (Bool × Database) :=
  match sqlInsertQuiz db quiz.title quiz.description with
  | none => some (false, db)
  | some db1 =>
    let quizId := db.quizzes_auto
    match addQuestions db1 quizId quiz.questions with
    | none => none
    | some db2 => some (true, db2)

/-- Rebuilds a `Question` from a row the way `getAllQuizzes` does: the first two options
always, the third and fourth when not `NULL`. -/
def QuestionRow.toQuestion (r : QuestionRow) (quizId : Int) : Question :=
  { id := r.id, text := r.text,
    options := [r.option1, r.option2] ++ r.option3.toList ++ r.option4.toList,
    correctOption := r.correct_option, quizId := quizId }

/-- Member `DatabaseManager::getAllQuizzes`: every quiz row with the questions of
`SELECT .. FROM questions WHERE quiz_id = ..`. -/
def getAllQuizzes (db : Database) : List Quiz :=
  db.quizzes.map (fun row =>
    { id := row.id, title := row.title, description := row.description,
      questions := (db.questions.filter (fun r => decide (r.quiz_id = row.id))).map
        (fun r => r.toQuestion row.id) })

/-- Member `DatabaseManager::recordQuizAttempt`: the upsert, then the increment of the total
score; `false` as soon as a statement fails. -/
def recordQuizAttempt (db : Database) (studentId quizId score : Int) : Bool × Database :=
  match sqlUpsertAttempt db studentId quizId score with
  | none => (false, db)
  | some db1 => (true, sqlAddScore db1 studentId score)

/-- Member `DatabaseManager::deleteUserAccount`; an empty `role` (the default argument)
leaves the role out of the `WHERE` clause. `false` when no row was deleted. -/
def deleteUserAccount (db : Database) (userId : Int) (role : String) : Bool × Database :=
  let result :=
    if role = "" then sqlDeleteUsers db (fun u => decide (u.id = userId))
    else sqlDeleteUsers db (fun u => decide (u.id = userId) && decide (u.role = role))
  if result.1 = 0 then (false, result.2) else (true, result.2)

/-- Member `DatabaseManager::getUserRoles(username)`:
`SELECT id, role FROM users WHERE username = ..`, the rows in the order the server
returns them. -/
def getUserRoles (db : Database) (username : String) : List UserRole :=
  (db.rowOrder.scan (db.users.filter (fun u => decide (db.sqlEq u.username username)))).map
    (fun u => { id := u.id, role := u.role })

/-- Member `DatabaseManager::verifyPassword`:
`SELECT 1 FROM users WHERE username = .. AND password = .. LIMIT 1`, then
`mysql_num_rows(result) > 0`. -/
def verifyPassword (db : Database) (username password : String) : Bool :=
  let result :=
    (db.users.filter (fun u =>
      decide (db.sqlEq u.username username ∧ db.sqlEq u.password password))).take 1
  decide (result.length > 0)

/-- Member `DatabaseManager::deleteQuiz`. -/
def deleteQuiz (db : Database) (quizId : Int) : Bool × Database :=
  (true, sqlDeleteQuiz db quizId)

/-- Member `DatabaseManager::deleteQuestion`. -/
def deleteQuestion (db : Database) (questionId : Int) : Bool × Database :=
  (true, sqlDeleteQuestion db questionId)

/-- The `while ((row = mysql_fetch_row(result)))` loop of `displayStudentRanks`: `rank` is
incremented for every row, the line `rank, username, score` is printed, and `currentRank`
takes the rank of a row whose id is `currentStudentId`. Returns the printed lines and the
final `currentRank`. -/
def displayLoop (currentStudentId : Int) :
    List UserRow → Int → Int → List (Int × String × Int) × Int
  | [], _, currentRank => ([], currentRank)
  | row :: rest, rank, currentRank =>
    let rank1 := rank + 1
    let currentRank1 := if row.id = currentStudentId then rank1 else currentRank
    let out := displayLoop currentStudentId rest rank1 currentRank1
    ((rank1, row.username, row.score) :: out.1, out.2)

/-- The closing line of `displayStudentRanks`. -/
inductive RankMessage where
  | yourRankIs (rank : Int)
  | notRanked
deriving DecidableEq, Repr

/-- Member `DatabaseManager::displayStudentRanks`: the printed leaderboard lines
`(rank, username, score)` and the closing line; `currentRank` starts at `-1`. -/
def displayStudentRanks (db : Database) (currentStudentId : Int) :
    List (Int × String × Int) × RankMessage :=
  let out := displayLoop currentStudentId (sqlSelectLeaderboard db) 0 (-1)
  (out.1, if out.2 ≠ -1 then RankMessage.yourRankIs out.2 else RankMessage.notRanked)

/-! ## Menu code that builds a question (`Admin::displayMenu`) -/

/-- The loop `for (int j = 0; j < 4; ++j)` that reads the options: a line is kept when it is
not empty, the first empty line (or the end of the input) ends the loop. The first argument
is the number of rounds left. -/
def readOptions : Nat → List String → List String
  | 0, _ => []
  | _ + 1, [] => []
  | n + 1, line :: rest => if line ≠ "" then line :: readOptions n rest else []

/-- The loop `while (true)` that reads the correct option: the first entered number with
`correctOption >= 1 && correctOption <= options.size()` is taken. `none`: the input holds no
such number and the loop does not end. -/
def readCorrectOption (size : Nat) : List Int → Option Int
  | [] => none
  | entry :: rest =>
    if 1 ≤ entry ∧ entry ≤ (size : Int) then some entry else readCorrectOption size rest

/-- How a piece of menu code ends: it returns a value, it reads a `vector` past its end
(undefined behaviour), or it stays in an entry loop because the input holds no accepted
value. -/
inductive Run (α : Type) where
  | returns (value : α)
  | readsPastEnd
  | waitsForInput
deriving DecidableEq, Repr

/-- Entry of one question (menu entries 1, 2 and 5 share it): the options, then the correct
option, then `Question(0, text, options, correctOption, quizId)`. -/
def enterQuestion (text : String) (optionLines : List String) (entries : List Int)
    (quizId : Int) : Option Question :=
  let options := readOptions 4 optionLines
  match readCorrectOption options.length entries with
  | none => none
  | some correctOption =>
    some { id := 0, text := text, options := options, correctOption := correctOption,
           quizId := quizId }

/-- Menu entry 5 of `Admin::displayMenu`, "Add Question to Existing Quiz": the printed
result line and the database afterwards. -/
def adminAddQuestion (db : Database) (quizChoice : Int) (text : String)
    (optionLines : List String) (entries : List Int) : Run (String × Database) :=
  let quizzes := getAllQuizzes db
  if quizzes.isEmpty then
    Run.returns ("No quizzes available to add questions to.", db)
  else if quizChoice ≥ 1 ∧ quizChoice ≤ (quizzes.length : Int) then
    match quizzes[(quizChoice - 1).toNat]? with
    | none => Run.readsPastEnd
    | some quiz =>
      match enterQuestion text optionLines entries quiz.id with
      | none => Run.waitsForInput
      | some newQuestion =>
        match addQuestion db quiz.id newQuestion with
        | none => Run.readsPastEnd
        | some (true, db1) => Run.returns ("Question added successfully!", db1)
        | some (false, db1) => Run.returns ("Failed to add question.", db1)
  else
    Run.returns ("Invalid choice.", db)

/-! ## Sequences of operations -/

/-- The operations that change the store. -/
inductive Op where
  | registerUser (username password role : String)
  | deleteUserAccount (userId : Int) (role : String)
  | addQuiz (quiz : Quiz)
  | addQuestion (quizId : Int) (question : Question)
  | deleteQuiz (quizId : Int)
  | deleteQuestion (questionId : Int)
  | recordQuizAttempt (studentId quizId score : Int)
deriving DecidableEq, Repr

/-- The database after one operation, whatever the operation reports; `none` when the
operation reads past the end of a vector. -/
def applyOp (db : Database) : Op → Option Database
  | Op.registerUser username password role => some (registerUser db username password role).2
  | Op.deleteUserAccount userId role => some (deleteUserAccount db userId role).2
  | Op.addQuiz quiz => (addQuiz db quiz).map (fun r => r.2)
  | Op.addQuestion quizId question => (addQuestion db quizId question).map (fun r => r.2)
  | Op.deleteQuiz quizId => some (deleteQuiz db quizId).2
  | Op.deleteQuestion questionId => some (deleteQuestion db questionId).2
  | Op.recordQuizAttempt studentId quizId score =>
    some (recordQuizAttempt db studentId quizId score).2

/-- The database after a sequence of operations. -/
def runOps (db : Database) : List Op → Option Database
  | [] => some db
  | op :: rest =>
    match applyOp db op with
    | none => none
    | some db1 => runOps db1 rest

/-- A sequence of `recordQuizAttempt` calls of one student, each given by a quiz id and a
score: whether all of them returned `true`, and the database afterwards. -/
def recordAttempts (db : Database) (studentId : Int) : List (Int × Int) → Bool × Database
  | [] => (true, db)
  | (quizId, score) :: rest =>
    let r := recordQuizAttempt db studentId quizId score
    let rs := recordAttempts r.2 studentId rest
    (r.1 && rs.1, rs.2)

/-- The key constraints of `users` and `student_quizzes`: unique user ids, the counter of
`users` above every id in use, unique `(student_id, quiz_id)` pairs. -/
def Database.keysValid (db : Database) : Prop :=
  (db.users.map (fun u => u.id)).Nodup ∧ (∀ u ∈ db.users, u.id < db.users_auto) ∧
  (db.student_quizzes.map AttemptRow.key).Nodup

/-! ## Further members of `DatabaseManager` -/

/-- Member `DatabaseManager::getUserRoles(username, password)`:
`SELECT id, role FROM users WHERE username = .. AND password = ..`, the rows in the order
the server returns them. -/
def getUserRolesWithPassword (db : Database) (username password : String) : List UserRole :=
  (db.rowOrder.scan (db.users.filter (fun u =>
    decide (db.sqlEq u.username username ∧ db.sqlEq u.password password)))).map
    (fun u => { id := u.id, role := u.role })

/-- Member `DatabaseManager::getAllRolesForUser`:
`SELECT id, role FROM users WHERE username = ..`, the rows in the order the server
returns them. -/
def getAllRolesForUser (db : Database) (username : String) : List UserRole :=
  (db.rowOrder.scan (db.users.filter (fun u => decide (db.sqlEq u.username username)))).map
    (fun u => { id := u.id, role := u.role })

/-! ## Taking a quiz (`Quiz::startQuiz`, `Student::displayMenu`) -/

/-- Class `Admin`: the fields of `User`; the role is "admin". -/
structure Admin where
  id : Int
  username : String
  password : String
deriving DecidableEq, Repr

/-- Class `Student`: the fields of `User` and the score of the session; the role is
"student". -/
structure Student where
  id : Int
  username : String
  password : String
  score : Int
deriving DecidableEq, Repr

/-- Member `Student::updateScore`. -/
def Student.updateScore (student : Student) (points : Int) : Student :=
  { student with score := student.score + points }

/-- Member `Question::checkAnswer`. -/
def Question.checkAnswer (question : Question) (userChoice : Int) : Bool :=
  decide (userChoice = question.correctOption)

/-- The loop `for (const auto& question : questions)` of `startQuiz`: one choice is read
for every question and the local `score` is incremented when `checkAnswer` holds. `none`:
the input ends before the last question. -/
def startQuizLoop : List Question → List Int → Int → Option Int
  | [], _, score => some score
  | _ :: _, [], _ => none
  | question :: rest, choice :: choices, score =>
    if question.checkAnswer choice then startQuizLoop rest choices (score + 1)
    else startQuizLoop rest choices score

/-- Member `Quiz::startQuiz`: the score printed in "Quiz completed! Your score: .." and
the student after `student.updateScore(score)`. -/
def Quiz.startQuiz (quiz : Quiz) (student : Student) (choices : List Int) :
    Option (Int × Student) :=
  match startQuizLoop quiz.questions choices 0 with
  | none => none
  | some score => some (score, student.updateScore score)

/-- The arguments of one call `db.recordQuizAttempt(studentId, quizId, score)`. -/
structure AttemptCall where
  studentId : Int
  quizId : Int
  score : Int
deriving DecidableEq, Repr

/-- What menu entry 1 of the student menu did: the score `startQuiz` printed and the call
of `recordQuizAttempt` that followed, when a quiz was taken. -/
structure QuizTaken where
  printedScore : Int
  call : AttemptCall
deriving DecidableEq, Repr

/-- Menu entry 1 of `Student::displayMenu`, "Take a Quiz":
`quizzes[quizChoice - 1].startQuiz(*this)` and then
`db.recordQuizAttempt(id, quizzes[quizChoice - 1].getId(), score)` with the member `score`.
Returns the student object, what was done, and the database afterwards. -/
def studentTakeQuiz (db : Database) (student : Student) (quizChoice : Int)
    (choices : List Int) : Run (Student × Option QuizTaken × Database) :=
  let quizzes := getAllQuizzes db
  if quizzes.isEmpty then
    Run.returns (student, none, db)
  else if quizChoice > 0 ∧ quizChoice ≤ (quizzes.length : Int) then
    match quizzes[(quizChoice - 1).toNat]? with
    | none => Run.readsPastEnd
    | some quiz =>
      match quiz.startQuiz student choices with
      | none => Run.waitsForInput
      | some (printed, student1) =>
        Run.returns (student1,
          some { printedScore := printed,
                 call := { studentId := student1.id, quizId := quiz.id,
                           score := student1.score } },
          (recordQuizAttempt db student1.id quiz.id student1.score).2)
  else
    Run.returns (student, none, db)

/-- A session of the student menu in which entry 1 is chosen again and again, each time
with a quiz choice and the answers: the student object at the end, the quizzes taken in
order, and the database at the end. -/
def studentSession (db : Database) (student : Student) :
    List (Int × List Int) → Run (Student × List QuizTaken × Database)
  | [] => Run.returns (student, [], db)
  | (quizChoice, choices) :: rest =>
    match studentTakeQuiz db student quizChoice choices with
    | Run.returns (student1, taken, db1) =>
      match studentSession db1 student1 rest with
      | Run.returns (student2, takens, db2) =>
        Run.returns (student2, taken.toList ++ takens, db2)
      | Run.readsPastEnd => Run.readsPastEnd
      | Run.waitsForInput => Run.waitsForInput
    | Run.readsPastEnd => Run.readsPastEnd
    | Run.waitsForInput => Run.waitsForInput

/-! ## Login (`QuizApplication::run`, case 1) -/

/-- The object behind `unique_ptr<User>`. -/
inductive UserObject where
  | admin (a : Admin)
  | student (s : Student)
deriving DecidableEq, Repr

/-- Member `User::getId`. -/
def UserObject.getId : UserObject → Int
  | UserObject.admin a => a.id
  | UserObject.student s => s.id

/-- Member `User::getRole`: the role the constructors of `Admin` and `Student` pass on. -/
def UserObject.getRole : UserObject → String
  | UserObject.admin _ => "admin"
  | UserObject.student _ => "student"

/-- The object built for a role entry: `make_unique<Admin>(id, username, password)` when
the role is "admin", `make_unique<Student>(id, username, password)` otherwise; a new
`Student` has score 0. -/
def makeUser (entry : UserRole) (username password : String) : UserObject :=
  if entry.role = "admin" then UserObject.admin ⟨entry.id, username, password⟩
  else UserObject.student ⟨entry.id, username, password, 0⟩

/-- The loop `while (true)` of the role selection: the first entered number with
`choice > 0 && choice <= allRoles.size()` is taken. `none`: the input holds no such
number. -/
def readRoleChoice (size : Nat) : List Int → Option Int
  | [] => none
  | choice :: rest =>
    if choice > 0 ∧ choice ≤ (size : Int) then some choice else readRoleChoice size rest

/-- How the login ends. -/
inductive LoginResult where
  | invalidUsernameOrPassword
  | noRolesFound
  | loginSuccessful (user : UserObject)
deriving DecidableEq, Repr

/-- Case 1 of `QuizApplication::run` up to "Login successful!": `verifyPassword`, then
`getAllRolesForUser`, then the single role or the selected one. -/
def login (db : Database) (username password : String) (choices : List Int) :
    Run LoginResult :=
  if !verifyPassword db username password then
    Run.returns LoginResult.invalidUsernameOrPassword
  else
    let allRoles := getAllRolesForUser db username
    if allRoles.isEmpty then
      Run.returns LoginResult.noRolesFound
    else if allRoles.length = 1 then
      match allRoles[0]? with
      | none => Run.readsPastEnd
      | some entry => Run.returns (LoginResult.loginSuccessful (makeUser entry username password))
    else
      match readRoleChoice allRoles.length choices with
      | none => Run.waitsForInput
      | some choice =>
        match allRoles[(choice - 1).toNat]? with
        | none => Run.readsPastEnd
        | some entry =>
          Run.returns (LoginResult.loginSuccessful (makeUser entry username password))

/-! ## Deleting an account (`deleteAccountFlow`) -/

/-- The row `addQuestion` sends for a question, under a given id. -/
def Question.toRow (question : Question) (id quizId : Int) : QuestionRow :=
  { id := id, quiz_id := quizId, text := question.text,
    option1 := question.options.getD 0 "", option2 := question.options.getD 1 "",
    option3 := question.options[2]?, option4 := question.options[3]?,
    correct_option := question.correctOption }

/-- Member `DatabaseManager::addQuestion` when `mysql_query` may fail for a reason the
schema does not show (a lost connection, a value the server refuses): with
`accepted = false` the statement returns an error and changes nothing. The query text is
built before, so the reads of the first two options happen in both cases. -/
def addQuestionOn (accepted : Bool) (db : Database) (quizId : Int) (question : Question) :
    Option (Bool × Database) :=
  match question.options[0]?, question.options[1]? with
  | some option1, some option2 =>
    let option3 := if question.options.length > 2 then question.options[2]? else none
    let option4 := if question.options.length > 3 then question.options[3]? else none
    let result :=
      if accepted then
        sqlInsertQuestion db quizId question.text option1 option2 option3 option4
          question.correctOption
      else none
    match result with
    | some db1 => some (true, db1)
    | none => some (false, db)
  | _, _ => none

/-- The loop of `addQuiz` over the questions, with one flag for every `addQuestion` call
(a missing flag counts as `true`). -/
def addQuestionsOn (db : Database) (quizId : Int) :
    List Bool → List Question → Option Database
  | _, [] => some db
  | flags, question :: rest =>
    match addQuestionOn (flags.headD true) db quizId question with
    | none => none
    | some (_, db1) => addQuestionsOn db1 quizId flags.tail rest

/-- Member `DatabaseManager::addQuiz` with a flag for the insert of the quiz row and one
for the insert of every question. -/
def addQuizOn (quizAccepted : Bool) (flags : List Bool) (db : Database) (quiz : Quiz) :
    Option (Bool × Database) :=
  match (if quizAccepted then sqlInsertQuiz db quiz.title quiz.description else none) with
  | none => some (false, db)
  | some db1 =>
    let quizId := db.quizzes_auto
    match addQuestionsOn db1 quizId flags quiz.questions with
    | none => none
    | some db2 => some (true, db2)

/-- The questions whose flag is `true` (a missing flag counts as `true`). -/
def acceptedQuestions : List Bool → List Question → List Question
  | _, [] => []
  | flags, question :: rest =>
    if flags.headD true then question :: acceptedQuestions flags.tail rest
    else acceptedQuestions flags.tail rest

/-- The rows of a list of questions inserted one after the other, the ids counting up
from `id`. -/
def questionRows (quizId : Int) : Int → List Question → List QuestionRow
  | _, [] => []
  | id, question :: rest => question.toRow id quizId :: questionRows quizId (id + 1) rest

/-- The constraints between the tables: every question belongs to a quiz, every attempt
to a user and a quiz (the three foreign keys). -/
def Database.refsValid (db : Database) : Prop :=
  (∀ r ∈ db.questions, db.hasQuiz r.quiz_id = true) ∧
  (∀ r ∈ db.student_quizzes, db.hasUser r.student_id = true ∧ db.hasQuiz r.quiz_id = true)

/-- The counters of `quizzes` and `questions` are above every id in use. -/
def Database.catalogKeysValid (db : Database) : Prop :=
  (∀ q ∈ db.quizzes, q.id < db.quizzes_auto) ∧ (∀ r ∈ db.questions, r.id < db.questions_auto)

/-- The tally of the specification: the number of positions at which the choice equals
the correct option of the question. -/
def correctAnswers (questions : List Question) (choices : List Int) : Nat :=
  (questions.zip choices).countP (fun p => decide (p.2 = p.1.correctOption))

/-! ## A sample database -/

/-- A database with two accounts of one username, a second student, two quizzes, one
question and one attempt, on a server as installed. -/
def sampleDatabase : Database :=
  { users := [⟨1, "bob", "pw", "student", 0⟩, ⟨2, "bob", "pw2", "admin", 0⟩,
              ⟨3, "al", "x", "student", 4⟩],
    quizzes := [⟨1, "Geo", "d", none⟩, ⟨2, "Math", "m", none⟩],
    questions := [⟨1, 1, "Q", "a", "b", none, none, 1⟩],
    student_quizzes := [⟨3, 2, 4⟩],
    users_auto := 4, quizzes_auto := 3, questions_auto := 2,
    collation := Collation.caseInsensitive, rowOrder := RowOrder.uniqueIndex }

/-- A sequence of operations that builds the sample database from the empty one. -/
def sampleOps : List Op :=
  [Op.registerUser "bob" "pw" "student", Op.registerUser "bob" "pw2" "admin",
   Op.registerUser "al" "x" "student",
   Op.addQuiz ⟨0, "Geo", "d", [⟨0, "Q", ["a", "b"], 1, 0⟩]⟩,
   Op.addQuiz ⟨0, "Math", "m", []⟩,
   Op.recordQuizAttempt 3 2 4]

/-- A quiz with three questions of two, three and four options. -/
def sampleQuiz : Quiz :=
  ⟨0, "Capitals", "c",
    [⟨0, "q1", ["a", "b"], 1, 0⟩, ⟨0, "q2", ["a", "b", "c"], 2, 0⟩,
     ⟨0, "q3", ["a", "b", "c", "d"], 4, 0⟩]⟩

theorem upsert_map_keys (l : List AttemptRow) (k : Int × Int) (v : Int) :
    (l.map (fun r => if r.key = k then { r with score := v } else r)).map AttemptRow.key
      = l.map AttemptRow.key := by
  rw [List.map_map]
  congr 1
  funext r
  simp only [Function.comp]
  split <;> rfl

theorem upsert_map_filter_other (l : List AttemptRow) (k : Int × Int) (v : Int) :
    (l.map (fun r => if r.key = k then { r with score := v } else r)).filter
        (fun r => !decide (r.key = k))
      = l.filter (fun r => !decide (r.key = k)) := by
  induction l with
  | nil => rfl
  | cons r l ih =>
    by_cases h : r.key = k
    · have h2 : ({ r with score := v } : AttemptRow).key = k := h
      simp [List.filter_cons, h, h2, ih]
    · simp [List.filter_cons, h, ih]

theorem upsert_map_filter_absent (l : List AttemptRow) (k : Int × Int) (v : Int)
    (h : ∀ r ∈ l, r.key ≠ k) :
    (l.map (fun r => if r.key = k then { r with score := v } else r)).filter
        (fun r => decide (r.key = k)) = [] := by
  induction l with
  | nil => rfl
  | cons r l ih =>
    have hr : r.key ≠ k := h r (List.mem_cons_self _ _)
    have hl : ∀ x ∈ l, x.key ≠ k := fun x hx => h x (List.mem_cons_of_mem _ hx)
    simp [List.filter_cons, hr, ih hl]

theorem upsert_map_filter_key (l : List AttemptRow) (s q v : Int)
    (hnd : (l.map AttemptRow.key).Nodup) (hex : ∃ r ∈ l, r.key = (s, q)) :
    (l.map (fun r => if r.key = (s, q) then { r with score := v } else r)).filter
        (fun r => decide (r.key = (s, q))) = [⟨s, q, v⟩] := by
  induction l with
  | nil => obtain ⟨r, hr, _⟩ := hex; cases hr
  | cons r l ih =>
    rw [List.map_cons, List.nodup_cons] at hnd
    by_cases h : r.key = (s, q)
    · have habs : ∀ x ∈ l, x.key ≠ (s, q) := by
        intro x hx hxk
        exact hnd.1 (List.mem_map.mpr ⟨x, hx, by rw [hxk, h]⟩)
      have h2 : ({ r with score := v } : AttemptRow).key = (s, q) := h
      have h3 : ({ r with score := v } : AttemptRow) = ⟨s, q, v⟩ := by
        cases r
        simp only [AttemptRow.key, Prod.mk.injEq] at h
        simp [h.1, h.2]
      rw [List.map_cons, if_pos h, List.filter_cons_of_pos (by simpa using h2),
        upsert_map_filter_absent l (s, q) v habs, h3]
    · obtain ⟨x, hx, hxk⟩ := hex
      have hx2 : x ∈ l := by
        rcases List.mem_cons.mp hx with e | e
        · exact absurd (e ▸ hxk) h
        · exact e
      rw [List.map_cons, if_neg h, List.filter_cons_of_neg (by simpa using h)]
      exact ih hnd.2 ⟨x, hx2, hxk⟩

theorem hasAttempt_iff (db : Database) (s q : Int) :
    db.hasAttempt s q = true ↔ ∃ r ∈ db.student_quizzes, r.key = (s, q) := by
  simp [Database.hasAttempt]

theorem hasUser_iff (db : Database) (id : Int) :
    db.hasUser id = true ↔ ∃ u ∈ db.users, u.id = id := by
  simp [Database.hasUser]

theorem hasQuiz_iff (db : Database) (id : Int) :
    db.hasQuiz id = true ↔ ∃ q ∈ db.quizzes, q.id = id := by
  simp [Database.hasQuiz]

/-- One call of `recordQuizAttempt` on a key that is present or insertable. -/
theorem recordQuizAttempt_once (db : Database) (s q v : Int)
    (hpk : (db.student_quizzes.map AttemptRow.key).Nodup)
    (h : db.hasAttempt s q = true ∨ (db.hasUser s = true ∧ db.hasQuiz q = true)) :
    (recordQuizAttempt db s q v).1 = true ∧
    (recordQuizAttempt db s q v).2.student_quizzes.filter (fun r => decide (r.key = (s, q)))
      = [⟨s, q, v⟩] ∧
    (recordQuizAttempt db s q v).2.student_quizzes.filter (fun r => !decide (r.key = (s, q)))
      = db.student_quizzes.filter (fun r => !decide (r.key = (s, q))) ∧
    ((recordQuizAttempt db s q v).2.student_quizzes.map AttemptRow.key).Nodup ∧
    (recordQuizAttempt db s q v).2.hasAttempt s q = true := by
  by_cases ha : db.hasAttempt s q = true
  · have hex := (hasAttempt_iff db s q).mp ha
    have e : recordQuizAttempt db s q v = (true, sqlAddScore { db with
        student_quizzes := db.student_quizzes.map (fun r =>
          if r.key = (s, q) then { r with score := v } else r) } s v) := by
      simp [recordQuizAttempt, sqlUpsertAttempt, ha]
    rw [e]
    refine ⟨rfl, ?_, ?_, ?_, ?_⟩
    · exact upsert_map_filter_key _ s q v hpk hex
    · exact upsert_map_filter_other _ (s, q) v
    · show ((db.student_quizzes.map _).map AttemptRow.key).Nodup
      rw [upsert_map_keys]; exact hpk
    · rw [hasAttempt_iff]
      obtain ⟨r, hr, hk⟩ := hex
      refine ⟨{ r with score := v }, ?_, hk⟩
      show _ ∈ db.student_quizzes.map _
      exact List.mem_map.mpr ⟨r, hr, by simp [hk]⟩
  · have hu : db.hasUser s = true ∧ db.hasQuiz q = true := h.resolve_left ha
    have hno : ∀ r ∈ db.student_quizzes, r.key ≠ (s, q) := by
      intro r hr hk
      exact ha ((hasAttempt_iff db s q).mpr ⟨r, hr, hk⟩)
    have e : recordQuizAttempt db s q v = (true, sqlAddScore { db with
        student_quizzes := db.student_quizzes ++ [⟨s, q, v⟩] } s v) := by
      simp [recordQuizAttempt, sqlUpsertAttempt, ha, hu.1, hu.2]
    rw [e]
    refine ⟨rfl, ?_, ?_, ?_, ?_⟩
    · show (db.student_quizzes ++ [(⟨s, q, v⟩ : AttemptRow)]).filter _ = _
      rw [List.filter_append]
      have : db.student_quizzes.filter (fun r => decide (r.key = (s, q))) = [] := by
        simp only [List.filter_eq_nil_iff, decide_eq_true_eq]
        exact hno
      rw [this]
      simp [List.filter_cons, AttemptRow.key]
    · show (db.student_quizzes ++ [(⟨s, q, v⟩ : AttemptRow)]).filter _ = _
      rw [List.filter_append]
      simp [List.filter_cons, AttemptRow.key]
    · show ((db.student_quizzes ++ [(⟨s, q, v⟩ : AttemptRow)]).map AttemptRow.key).Nodup
      rw [List.map_append, List.nodup_append]
      refine ⟨hpk, by simp, ?_⟩
      intro a ha1 ha2
      simp only [List.map_cons, List.map_nil, List.mem_singleton] at ha2
      obtain ⟨r, hr, hk⟩ := List.mem_map.mp ha1
      exact hno r hr (by rw [hk, ha2]; rfl)
    · rw [hasAttempt_iff]
      exact ⟨⟨s, q, v⟩, by show _ ∈ db.student_quizzes ++ _; simp, rfl⟩

/-- C1. In a database whose `student_quizzes` keys are unique (the primary key), for an
existing user `s` and an existing quiz `q`: `recordQuizAttempt(s, q, a)` followed by
`recordQuizAttempt(s, q, b)` both return `true`, afterwards the rows of key `(s, q)` are
exactly the one row with score `b`, and the rows of every other key are the ones from
before, in the same order. -/
theorem recordQuizAttempt_last_write_wins (db : Database) (s q a b : Int)
    (hpk : (db.student_quizzes.map AttemptRow.key).Nodup)
    (hs : db.hasUser s = true) (hq : db.hasQuiz q = true) :
    (recordQuizAttempt db s q a).1 = true ∧
    (recordQuizAttempt (recordQuizAttempt db s q a).2 s q b).1 = true ∧
    (recordQuizAttempt (recordQuizAttempt db s q a).2 s q b).2.student_quizzes.filter
        (fun r => decide (r.key = (s, q))) = [⟨s, q, b⟩] ∧
    (recordQuizAttempt (recordQuizAttempt db s q a).2 s q b).2.student_quizzes.filter
        (fun r => !decide (r.key = (s, q)))
      = db.student_quizzes.filter (fun r => !decide (r.key = (s, q))) := by
  obtain ⟨h1, _, h3, h4, h5⟩ := recordQuizAttempt_once db s q a hpk (Or.inr ⟨hs, hq⟩)
  obtain ⟨g1, g2, g3, _, _⟩ :=
    recordQuizAttempt_once (recordQuizAttempt db s q a).2 s q b h4 (Or.inl h5)
  exact ⟨h1, g1, g2, g3.trans h3⟩

/-- C1 at the sample database: user 1 records 5, then 3, for quiz 1. -/
theorem recordQuizAttempt_last_write_wins_witness :
    (sampleDatabase.student_quizzes.map AttemptRow.key).Nodup ∧
    sampleDatabase.hasUser 1 = true ∧ sampleDatabase.hasQuiz 1 = true ∧
    (recordQuizAttempt (recordQuizAttempt sampleDatabase 1 1 5).2 1 1 3).2.student_quizzes.filter
        (fun r => decide (r.key = (1, 1))) = [⟨1, 1, 3⟩] ∧
    (recordQuizAttempt (recordQuizAttempt sampleDatabase 1 1 5).2 1 1 3).2.student_quizzes.filter
        (fun r => !decide (r.key = (1, 1))) = [⟨3, 2, 4⟩] :=
  ⟨by decide, by decide, by decide,
    (recordQuizAttempt_last_write_wins sampleDatabase 1 1 5 3
      (by decide) (by decide) (by decide)).2.2.1,
    (recordQuizAttempt_last_write_wins sampleDatabase 1 1 5 3
      (by decide) (by decide) (by decide)).2.2.2⟩

theorem addToScore_id (s v : Int) (u : UserRow) : (addToScore s v u).id = u.id := by
  unfold addToScore; split <;> rfl

theorem addToScore_zero (s : Int) (u : UserRow) : addToScore s 0 u = u := by
  unfold addToScore; split <;> simp

theorem addToScore_add (s v w : Int) (u : UserRow) :
    addToScore s w (addToScore s v u) = addToScore s (v + w) u := by
  unfold addToScore
  by_cases h : u.id = s
  · simp [h, add_assoc]
  · simp [h]

theorem recordQuizAttempt_users (db : Database) (s q v : Int)
    (h : (recordQuizAttempt db s q v).1 = true) :
    (recordQuizAttempt db s q v).2.users = db.users.map (addToScore s v) := by
  unfold recordQuizAttempt at h ⊢
  cases hu : sqlUpsertAttempt db s q v with
  | none => rw [hu] at h; cases h
  | some db1 =>
    have e : db1.users = db.users := by
      unfold sqlUpsertAttempt at hu
      split at hu
      · cases hu; rfl
      · split at hu
        · cases hu; rfl
        · cases hu
    show (sqlAddScore db1 s v).users = _
    unfold sqlAddScore
    simp only [e]

theorem recordAttempts_users (s : Int) (calls : List (Int × Int)) :
    ∀ db : Database, (recordAttempts db s calls).1 = true →
      (recordAttempts db s calls).2.users
        = db.users.map (addToScore s (calls.map Prod.snd).sum) := by
  induction calls with
  | nil =>
    intro db _
    have : addToScore s 0 = id := funext (addToScore_zero s)
    simp [recordAttempts, this]
  | cons c rest ih =>
    intro db h
    obtain ⟨q, v⟩ := c
    simp only [recordAttempts, Bool.and_eq_true] at h ⊢
    rw [ih _ h.2, recordQuizAttempt_users db s q v h.1, List.map_map]
    congr 1
    funext u
    simp [Function.comp, addToScore_add]

theorem find_map_addToScore (l : List UserRow) (s v t : Int) :
    (l.map (addToScore s v)).find? (fun u => decide (u.id = t))
      = (l.find? (fun u => decide (u.id = t))).map (addToScore s v) := by
  induction l with
  | nil => rfl
  | cons u l ih =>
    simp only [List.map_cons, List.find?_cons, addToScore_id]
    by_cases h : u.id = t
    · simp [h]
    · simp [h, ih]

/-- C2. When user `s` has total score `c0` and every call of a sequence of
`recordQuizAttempt` calls for `s` returns `true` (any quizzes, repeated or not), the total
score of `s` afterwards is `c0` plus the sum of all submitted scores, the total score of
every other id is the one from before, and table `users` differs from before only in the
score of the rows with id `s`. -/
theorem recordAttempts_cumulative (db : Database) (s : Int) (calls : List (Int × Int))
    (c0 : Int) (hc : db.scoreOf s = some c0) (hok : (recordAttempts db s calls).1 = true) :
    (recordAttempts db s calls).2.scoreOf s = some (c0 + (calls.map Prod.snd).sum) ∧
    (∀ t, t ≠ s → (recordAttempts db s calls).2.scoreOf t = db.scoreOf t) ∧
    (recordAttempts db s calls).2.users = db.users.map (fun u =>
      if u.id = s then { u with score := u.score + (calls.map Prod.snd).sum } else u) := by
  have hu := recordAttempts_users s calls db hok
  refine ⟨?_, ?_, hu⟩
  · unfold Database.scoreOf at hc ⊢
    rw [hu, find_map_addToScore]
    cases hf : db.users.find? (fun u => decide (u.id = s)) with
    | none => rw [hf] at hc; cases hc
    | some u =>
      rw [hf] at hc
      have hid : u.id = s := by simpa using List.find?_some hf
      simp only [Option.map_some', Option.some.injEq] at hc ⊢
      simp [addToScore, hid, hc]
  · intro t ht
    unfold Database.scoreOf
    rw [hu, find_map_addToScore]
    cases hf : db.users.find? (fun u => decide (u.id = t)) with
    | none => rfl
    | some u =>
      have hid : u.id = t := by simpa using List.find?_some hf
      have : u.id ≠ s := by rw [hid]; exact ht
      simp [addToScore, this]

/-- C2 at the sample database: user 1 records 5 and then 3 for the same quiz; the total is
8 although the stored attempt holds 3. -/
theorem recordAttempts_cumulative_witness :
    sampleDatabase.scoreOf 1 = some 0 ∧
    (recordAttempts sampleDatabase 1 [(1, 5), (1, 3)]).1 = true ∧
    (recordAttempts sampleDatabase 1 [(1, 5), (1, 3)]).2.scoreOf 1 = some 8 ∧
    (recordAttempts sampleDatabase 1 [(1, 5), (1, 3)]).2.student_quizzes
      = [⟨3, 2, 4⟩, ⟨1, 1, 3⟩] :=
  ⟨by decide, by decide,
    (recordAttempts_cumulative sampleDatabase 1 [(1, 5), (1, 3)] 0 (by decide) (by decide)).1,
    by decide⟩

/-! ## The leaderboard -/

theorem displayLoop_absent (id : Int) (rows : List UserRow) :
    ∀ rank cr : Int, (∀ u ∈ rows, u.id ≠ id) → (displayLoop id rows rank cr).2 = cr := by
  induction rows with
  | nil => intro _ _ _; rfl
  | cons u rest ih =>
    intro rank cr h
    have hu : u.id ≠ id := h u (List.mem_cons_self _ _)
    simp only [displayLoop, if_neg hu]
    exact ih _ _ (fun x hx => h x (List.mem_cons_of_mem _ hx))

theorem displayLoop_present (id : Int) (rows : List UserRow) :
    ∀ rank cr : Int, (∃ u ∈ rows, u.id = id) → rank < (displayLoop id rows rank cr).2 := by
  induction rows with
  | nil => intro _ _ h; obtain ⟨u, hu, _⟩ := h; cases hu
  | cons u rest ih =>
    intro rank cr h
    simp only [displayLoop]
    by_cases hr : ∃ x ∈ rest, x.id = id
    · have := ih (rank + 1) (if u.id = id then rank + 1 else cr) hr
      omega
    · have hno : ∀ x ∈ rest, x.id ≠ id := fun x hx hxi => hr ⟨x, hx, hxi⟩
      rw [displayLoop_absent id rest _ _ hno]
      obtain ⟨x, hx, hxi⟩ := h
      rcases List.mem_cons.mp hx with e | e
      · subst e; rw [if_pos hxi]; omega
      · exact absurd hxi (hno x e)

theorem displayLoop_position (id : Int) (rows : List UserRow) (u : UserRow) :
    ∀ (rank cr : Int) (i : Nat), (rows.map (fun x => x.id)).Nodup → u.id = id →
      rows[i]? = some u → (displayLoop id rows rank cr).2 = rank + (i : Int) + 1 := by
  induction rows with
  | nil => intro _ _ i _ _ h; simp at h
  | cons x rest ih =>
    intro rank cr i hnd hid hi
    rw [List.map_cons, List.nodup_cons] at hnd
    simp only [displayLoop]
    cases i with
    | zero =>
      simp only [List.getElem?_cons_zero, Option.some.injEq] at hi
      subst hi
      have hno : ∀ y ∈ rest, y.id ≠ id := by
        intro y hy hyi
        exact hnd.1 (List.mem_map.mpr ⟨y, hy, by rw [hyi, hid]⟩)
      rw [displayLoop_absent id rest _ _ hno, if_pos hid]
      simp
    | succ j =>
      simp only [List.getElem?_cons_succ] at hi
      rw [ih (rank + 1) _ j hnd.2 hid hi]
      push_cast
      ring

theorem mem_sqlSelectLeaderboard (db : Database) (u : UserRow) :
    u ∈ sqlSelectLeaderboard db ↔ u ∈ db.users ∧ u.role = "student" := by
  unfold sqlSelectLeaderboard
  rw [List.mem_insertionSort]
  simp

theorem sqlSelectLeaderboard_perm (db : Database) :
    (sqlSelectLeaderboard db).Perm (db.users.filter (fun u => decide (u.role = "student"))) :=
  List.perm_insertionSort _ _

theorem sqlSelectLeaderboard_ids (db : Database) (h : (db.users.map (fun u => u.id)).Nodup) :
    ((sqlSelectLeaderboard db).map (fun u => u.id)).Nodup := by
  have hp := (sqlSelectLeaderboard_perm db).map (fun u => u.id)
  rw [hp.nodup_iff]
  exact (h.sublist ((List.filter_sublist _).map _))

/-- C4. With unique user ids (the primary key), for an account `u` of role `student`
with id `id` the closing line reports rank `i + 1`, where `i` is the one position at which
`u` stands in the leaderboard rows; this holds whatever the score and the attempts of `u`.
In every database the closing line is "not ranked" exactly when no account of role
`student` has id `id`. -/
theorem displayStudentRanks_rank (db : Database) (id : Int) :
    ((db.users.map (fun u => u.id)).Nodup →
      ∀ u ∈ db.users, u.id = id → u.role = "student" →
        ∃ i : Nat, (sqlSelectLeaderboard db)[i]? = some u ∧
          (∀ j : Nat, (sqlSelectLeaderboard db)[j]? = some u → j = i) ∧
          (displayStudentRanks db id).2 = RankMessage.yourRankIs ((i : Int) + 1)) ∧
    ((displayStudentRanks db id).2 = RankMessage.notRanked ↔
      ¬ ∃ u ∈ db.users, u.id = id ∧ u.role = "student") := by
  constructor
  · intro hnd u hu hid hrole
    have hmem : u ∈ sqlSelectLeaderboard db := (mem_sqlSelectLeaderboard db u).mpr ⟨hu, hrole⟩
    obtain ⟨i, hi⟩ := List.getElem?_of_mem hmem
    have hids := sqlSelectLeaderboard_ids db hnd
    have hpos := fun j hj => displayLoop_position id (sqlSelectLeaderboard db) u 0 (-1) j hids hid hj
    refine ⟨i, hi, ?_, ?_⟩
    · intro j hj
      have := (hpos j hj).symm.trans (hpos i hi)
      omega
    · simp only [displayStudentRanks, hpos i hi]
      have : ¬ ((0 : Int) + (i : Int) + 1 = -1) := by omega
      rw [if_pos this]
      simp
  · simp only [displayStudentRanks]
    constructor
    · intro h ⟨u, hu, hid, hrole⟩
      have hp := displayLoop_present id (sqlSelectLeaderboard db) 0 (-1)
        ⟨u, (mem_sqlSelectLeaderboard db u).mpr ⟨hu, hrole⟩, hid⟩
      have hne : (displayLoop id (sqlSelectLeaderboard db) 0 (-1)).2 ≠ -1 := by omega
      simp [hne] at h
    · intro h
      have hno : ∀ u ∈ sqlSelectLeaderboard db, u.id ≠ id := by
        intro u hu hid
        exact h ⟨u, ((mem_sqlSelectLeaderboard db u).mp hu).1, hid,
          ((mem_sqlSelectLeaderboard db u).mp hu).2⟩
      simp [displayLoop_absent id _ 0 (-1) hno]

/-- C4 at the sample database: student 1 has score 0 and no attempt, and is ranked. -/
theorem displayStudentRanks_rank_witness :
    (sampleDatabase.users.map (fun u => u.id)).Nodup ∧
    (∃ i : Nat,
      (sqlSelectLeaderboard sampleDatabase)[i]? = some ⟨1, "bob", "pw", "student", 0⟩ ∧
      (displayStudentRanks sampleDatabase 1).2 = RankMessage.yourRankIs ((i : Int) + 1)) ∧
    displayStudentRanks sampleDatabase 1
      = ([(1, "al", 4), (2, "bob", 0)], RankMessage.yourRankIs 2) ∧
    (displayStudentRanks sampleDatabase 2).2 = RankMessage.notRanked :=
  ⟨by decide,
    Exists.elim
      ((displayStudentRanks_rank sampleDatabase 1).1 (by decide)
        ⟨1, "bob", "pw", "student", 0⟩ (by decide) rfl rfl)
      (fun i h => ⟨i, h.1, h.2.2⟩),
    by decide, by decide⟩

/-! ## The account directory -/

theorem sqlEq_refl (db : Database) (a : String) : db.sqlEq a a := rfl

theorem sqlEq_of_eq (db : Database) {a b : String} (h : a = b) : db.sqlEq a b := h ▸ rfl

theorem sqlEq_binary (db : Database) (h : db.collation = Collation.binary) (a b : String) :
    db.sqlEq a b ↔ a = b := by
  unfold Database.sqlEq
  rw [h]
  exact Iff.rfl

theorem scan_perm (order : RowOrder) (rows : List UserRow) : (order.scan rows).Perm rows := by
  cases order
  · exact List.Perm.refl _
  · exact List.filter_append_perm _ rows

theorem mem_scan (order : RowOrder) (rows : List UserRow) (u : UserRow) :
    u ∈ order.scan rows ↔ u ∈ rows :=
  (scan_perm order rows).mem_iff

theorem scan_length (order : RowOrder) (rows : List UserRow) :
    (order.scan rows).length = rows.length :=
  (scan_perm order rows).length_eq

theorem sqlSelectIdentity_length (db : Database) (username role : String) :
    (sqlSelectIdentity db username role).length > 0 ↔
      ∃ u ∈ db.users, db.sqlEq u.username username ∧ u.role = role := by
  unfold sqlSelectIdentity
  rw [List.length_map, gt_iff_lt, List.length_pos_iff_exists_mem]
  constructor
  · rintro ⟨u, hu⟩
    rw [List.mem_filter] at hu
    exact ⟨u, hu.1, by simpa using hu.2⟩
  · rintro ⟨u, hu, h⟩
    exact ⟨u, List.mem_filter.mpr ⟨hu, by simpa using h⟩⟩

theorem mem_identities (db : Database) (username role : String) :
    (username, role) ∈ db.users.map UserRow.identity ↔
      ∃ u ∈ db.users, u.username = username ∧ u.role = role := by
  simp [UserRow.identity]

/-- The test of `username_role_unique` made by the insert. -/
theorem unique_check_iff (db : Database) (username role : String) :
    db.users.all (fun u => !decide (db.sqlEq u.username username ∧ u.role = role)) = true ↔
      ¬ ∃ u ∈ db.users, db.sqlEq u.username username ∧ u.role = role := by
  rw [List.all_eq_true]
  constructor
  · rintro h ⟨u, hu, hm⟩
    have := h u hu
    simp only [Bool.not_eq_true', decide_eq_false_iff_not] at this
    exact this hm
  · intro h u hu
    simp only [Bool.not_eq_true', decide_eq_false_iff_not]
    exact fun hm => h ⟨u, hu, hm⟩

/-- Refusal of a pair that is present. -/
theorem registerUser_present (db : Database) (username password role : String)
    (h : ∃ u ∈ db.users, u.username = username ∧ u.role = role) :
    registerUser db username password role = (false, db) := by
  obtain ⟨u, hu, hname, hrole⟩ := h
  unfold registerUser
  simp only [(sqlSelectIdentity_length db username role).mpr
    ⟨u, hu, sqlEq_of_eq db hname, hrole⟩, if_true]

/-- Refusal of a pair that is present under the comparison of the server. -/
theorem registerUser_matched (db : Database) (username password role : String)
    (h : ∃ u ∈ db.users, db.sqlEq u.username username ∧ u.role = role) :
    registerUser db username password role = (false, db) := by
  unfold registerUser
  simp only [(sqlSelectIdentity_length db username role).mpr h, if_true]

/-- What a call of `registerUser` does to the database. -/
theorem registerUser_cases (db : Database) (username password role : String) :
    registerUser db username password role = (false, db) ∨
    ((username, role) ∉ db.users.map UserRow.identity ∧ role ∈ roleEnum ∧
      db.hasUser db.users_auto = false ∧
      registerUser db username password role = (true, { db with
        users := db.users ++ [⟨db.users_auto, username, password, role, 0⟩]
        users_auto := db.users_auto + 1 })) := by
  unfold registerUser
  by_cases h : (sqlSelectIdentity db username role).length > 0
  · left; simp only [h, if_true]
  · simp only [h, if_false]
    unfold sqlInsertUser
    by_cases g : username.length ≤ 50 ∧ password.length ≤ 100 ∧
        role ∈ roleEnum ∧ db.hasUser db.users_auto = false ∧
        db.users.all (fun u => !decide (db.sqlEq u.username username ∧ u.role = role)) = true
    · right
      rw [if_pos g]
      refine ⟨?_, g.2.2.1, g.2.2.2.1, rfl⟩
      intro hmem
      obtain ⟨u, hu, hname, hrole⟩ := (mem_identities db username role).mp hmem
      exact (unique_check_iff db username role).mp g.2.2.2.2
        ⟨u, hu, sqlEq_of_eq db hname, hrole⟩
    · left
      rw [if_neg g]

/-- Acceptance of a new pair, of values that fit their columns, when the counter is ahead
of the ids in use. -/
theorem registerUser_fresh (db : Database) (username password role : String)
    (hrole : role ∈ roleEnum) (hauto : ∀ a ∈ db.users, a.id < db.users_auto)
    (hno : ¬ ∃ u ∈ db.users, db.sqlEq u.username username ∧ u.role = role)
    (hname : username.length ≤ 50) (hpass : password.length ≤ 100) :
    registerUser db username password role = (true, { db with
        users := db.users ++ [⟨db.users_auto, username, password, role, 0⟩]
        users_auto := db.users_auto + 1 }) := by
  have h1 : ¬ (sqlSelectIdentity db username role).length > 0 :=
    fun h => hno ((sqlSelectIdentity_length db username role).mp h)
  have h2 : db.hasUser db.users_auto = false := by
    rw [Bool.eq_false_iff]
    intro h
    obtain ⟨u, hu, hid⟩ := (by simpa [Database.hasUser] using h : ∃ u ∈ db.users, u.id = db.users_auto)
    have := hauto u hu
    omega
  unfold registerUser
  simp only [h1, if_false]
  unfold sqlInsertUser
  rw [if_pos ⟨hname, hpass, hrole, h2, (unique_check_iff db username role).mpr hno⟩]

theorem sqlInsertQuestion_some (db db1 : Database) (quizId : Int) (text o1 o2 : String)
    (o3 o4 : Option String) (c : Int)
    (h : sqlInsertQuestion db quizId text o1 o2 o3 o4 c = some db1) :
    db.hasQuiz quizId = true ∧ db.hasQuestion db.questions_auto = false ∧
    db1 = { db with
      questions := db.questions ++ [⟨db.questions_auto, quizId, text, o1, o2, o3, o4, c⟩]
      questions_auto := db.questions_auto + 1 } := by
  unfold sqlInsertQuestion at h
  split at h
  · rename_i g
    cases h
    exact ⟨g.1, g.2, rfl⟩
  · cases h

/-- What a call of `addQuestion` that returns does to the database. -/
theorem addQuestion_cases (db db1 : Database) (quizId : Int) (question : Question) (b : Bool)
    (h : addQuestion db quizId question = some (b, db1)) :
    (b = false ∧ db1 = db) ∨
    (b = true ∧ db.hasQuiz quizId = true ∧ ∃ row : QuestionRow, row.quiz_id = quizId ∧
      row.id = db.questions_auto ∧
      db1 = { db with questions := db.questions ++ [row]
                      questions_auto := db.questions_auto + 1 }) := by
  unfold addQuestion at h
  cases h0 : question.options[0]? with
  | none => simp only [h0] at h; cases h
  | some o1 =>
    cases h1 : question.options[1]? with
    | none => simp only [h0, h1] at h; cases h
    | some o2 =>
      simp only [h0, h1] at h
      split at h
      · rename_i db2 hi
        obtain ⟨hq, _, e⟩ := sqlInsertQuestion_some _ _ _ _ _ _ _ _ _ hi
        simp only [Option.some.injEq, Prod.mk.injEq] at h
        right
        exact ⟨h.1.symm, hq, _, rfl, rfl, h.2 ▸ e⟩
      · simp only [Option.some.injEq, Prod.mk.injEq] at h
        left
        exact ⟨h.1.symm, h.2.symm⟩

theorem addQuestion_users (db db1 : Database) (quizId : Int) (question : Question) (b : Bool)
    (h : addQuestion db quizId question = some (b, db1)) : db1.users = db.users := by
  rcases addQuestion_cases db db1 quizId question b h with ⟨_, e⟩ | ⟨_, _, row, _, _, e⟩
  · rw [e]
  · rw [e]

theorem addQuestions_users (quizId : Int) (questions : List Question) :
    ∀ db db1 : Database, addQuestions db quizId questions = some db1 →
      db1.users = db.users := by
  induction questions with
  | nil => intro db db1 h; cases h; rfl
  | cons q rest ih =>
    intro db db1 h
    unfold addQuestions at h
    split at h
    · cases h
    · rename_i b db2 hq
      rw [ih db2 db1 h, addQuestion_users db db2 quizId q b hq]

theorem addQuiz_users (db db1 : Database) (quiz : Quiz) (b : Bool)
    (h : addQuiz db quiz = some (b, db1)) : db1.users = db.users := by
  unfold addQuiz at h
  split at h
  · cases h; rfl
  · rename_i db2 hi
    simp only at h
    split at h
    · cases h
    · rename_i db3 hq
      cases h
      rw [addQuestions_users _ _ db2 db1 hq]
      unfold sqlInsertQuiz at hi
      split at hi
      · cases hi; rfl
      · cases hi

theorem recordQuizAttempt_users_cases (db : Database) (s q v : Int) :
    (recordQuizAttempt db s q v).2.users = db.users ∨
    (recordQuizAttempt db s q v).2.users = db.users.map (addToScore s v) := by
  cases hb : (recordQuizAttempt db s q v).1 with
  | false =>
    left
    unfold recordQuizAttempt at hb ⊢
    split
    · rfl
    · rename_i db1 hu; rw [hu] at hb; cases hb
  | true =>
    right
    unfold recordQuizAttempt at hb ⊢
    split
    · rename_i hu; rw [hu] at hb; cases hb
    · rename_i db1 hu
      have e : db1.users = db.users := by
        unfold sqlUpsertAttempt at hu
        split at hu
        · cases hu; rfl
        · split at hu
          · cases hu; rfl
          · cases hu
      show (sqlAddScore db1 s v).users = _
      unfold sqlAddScore
      simp only [e]

theorem deleteUserAccount_users (db : Database) (userId : Int) (role : String) :
    (deleteUserAccount db userId role).2.users
      = db.users.filter (fun u => !(decide (u.id = userId) && (decide (role = "") || decide (u.role = role)))) := by
  unfold deleteUserAccount
  by_cases h : role = ""
  · simp only [h, if_true]
    split <;> simp [sqlDeleteUsers]
  · simp only [h, if_false]
    split <;> simp [sqlDeleteUsers, h]

theorem addToScore_identity (s v : Int) (u : UserRow) :
    (addToScore s v u).identity = u.identity := by
  unfold addToScore; split <;> rfl

/-- What one operation does to table `users`: nothing, one insert of a new
`(username, role)` pair under the id of the counter, one delete by id, or one score
update. -/
theorem applyOp_users (db db1 : Database) (op : Op) (h : applyOp db op = some db1) :
    db1.users = db.users ∨
    (∃ username password role, (username, role) ∉ db.users.map UserRow.identity ∧
      db1.users = db.users ++ [⟨db.users_auto, username, password, role, 0⟩]) ∨
    (∃ userId role, op = Op.deleteUserAccount userId role ∧
      db1.users = db.users.filter (fun u =>
        !(decide (u.id = userId) && (decide (role = "") || decide (u.role = role))))) ∨
    (∃ s v, db1.users = db.users.map (addToScore s v)) := by
  cases op with
  | registerUser username password role =>
    simp only [applyOp, Option.some.injEq] at h
    subst h
    rcases registerUser_cases db username password role with e | ⟨hn, _, _, e⟩
    · left; rw [e]
    · right; left; exact ⟨username, password, role, hn, by rw [e]⟩
  | deleteUserAccount userId role =>
    simp only [applyOp, Option.some.injEq] at h
    subst h
    right; right; left
    exact ⟨userId, role, rfl, deleteUserAccount_users db userId role⟩
  | addQuiz quiz =>
    simp only [applyOp, Option.map_eq_some'] at h
    obtain ⟨⟨b, db2⟩, hq, e⟩ := h
    subst e
    left; exact addQuiz_users db db2 quiz b hq
  | addQuestion quizId question =>
    simp only [applyOp, Option.map_eq_some'] at h
    obtain ⟨⟨b, db2⟩, hq, e⟩ := h
    subst e
    left; exact addQuestion_users db db2 quizId question b hq
  | deleteQuiz quizId =>
    simp only [applyOp, Option.some.injEq] at h
    subst h; left; rfl
  | deleteQuestion questionId =>
    simp only [applyOp, Option.some.injEq] at h
    subst h; left; rfl
  | recordQuizAttempt s q v =>
    simp only [applyOp, Option.some.injEq] at h
    subst h
    rcases recordQuizAttempt_users_cases db s q v with e | e
    · left; exact e
    · right; right; right; exact ⟨s, v, e⟩

theorem applyOp_identities_nodup (db db1 : Database) (op : Op)
    (h : applyOp db op = some db1) (hnd : (db.users.map UserRow.identity).Nodup) :
    (db1.users.map UserRow.identity).Nodup := by
  rcases applyOp_users db db1 op h with e | ⟨un, pw, r, hn, e⟩ | ⟨uid, r, _, e⟩ | ⟨s, v, e⟩
  · rw [e]; exact hnd
  · rw [e, List.map_append, List.nodup_append]
    refine ⟨hnd, by simp, ?_⟩
    intro a ha1 ha2
    simp only [List.map_cons, List.map_nil, List.mem_singleton] at ha2
    rw [ha2] at ha1
    exact hn ha1
  · rw [e]
    exact hnd.sublist ((List.filter_sublist _).map _)
  · rw [e, List.map_map]
    have : UserRow.identity ∘ addToScore s v = UserRow.identity :=
      funext (addToScore_identity s v)
    rw [this]; exact hnd

theorem runOps_identities_nodup (ops : List Op) :
    ∀ db db1 : Database, runOps db ops = some db1 →
      (db.users.map UserRow.identity).Nodup → (db1.users.map UserRow.identity).Nodup := by
  induction ops with
  | nil => intro db db1 h hnd; cases h; exact hnd
  | cons op rest ih =>
    intro db db1 h hnd
    unfold runOps at h
    split at h
    · cases h
    · rename_i db2 ho
      exact ih db2 db1 h (applyOp_identities_nodup db db2 op ho hnd)

theorem applyOp_account_stays (db db1 : Database) (op : Op) (i : Int) (username role : String)
    (h : applyOp db op = some db1) (hop : ∀ r, op ≠ Op.deleteUserAccount i r)
    (hp : ∃ u ∈ db.users, u.id = i ∧ u.username = username ∧ u.role = role) :
    ∃ u ∈ db1.users, u.id = i ∧ u.username = username ∧ u.role = role := by
  obtain ⟨u, hu, hid, hun, hr⟩ := hp
  rcases applyOp_users db db1 op h with e | ⟨un, pw, r, _, e⟩ | ⟨uid, r, eop, e⟩ | ⟨s, v, e⟩
  · rw [e]; exact ⟨u, hu, hid, hun, hr⟩
  · rw [e]; exact ⟨u, List.mem_append_left _ hu, hid, hun, hr⟩
  · rw [e]
    have hne : u.id ≠ uid := by
      intro he
      apply hop r
      rw [eop, ← he, hid]
    exact ⟨u, List.mem_filter.mpr ⟨hu, by simp [hne]⟩, hid, hun, hr⟩
  · rw [e]
    refine ⟨addToScore s v u, List.mem_map.mpr ⟨u, hu, rfl⟩, ?_, ?_, ?_⟩
    · rw [addToScore_id]; exact hid
    · have := addToScore_identity s v u
      simp only [UserRow.identity, Prod.mk.injEq] at this
      rw [this.1]; exact hun
    · have := addToScore_identity s v u
      simp only [UserRow.identity, Prod.mk.injEq] at this
      rw [this.2]; exact hr

theorem runOps_account_stays (i : Int) (username role : String) (ops : List Op) :
    ∀ db db1 : Database, runOps db ops = some db1 →
      (∀ r, Op.deleteUserAccount i r ∉ ops) →
      (∃ u ∈ db.users, u.id = i ∧ u.username = username ∧ u.role = role) →
      ∃ u ∈ db1.users, u.id = i ∧ u.username = username ∧ u.role = role := by
  induction ops with
  | nil => intro db db1 h _ hp; cases h; exact hp
  | cons op rest ih =>
    intro db db1 h hops hp
    unfold runOps at h
    split at h
    · cases h
    · rename_i db2 ho
      refine ih db2 db1 h (fun r hr => hops r (List.mem_cons_of_mem _ hr)) ?_
      refine applyOp_account_stays db db2 op i username role ho ?_ hp
      intro r hr
      exact hops r (hr ▸ List.mem_cons_self _ _)

/-- C5. When an account with username `username` and role `role` is in the database,
`registerUser(username, password, role)` returns `false` and leaves the database as it is,
for every password. And after a call of `registerUser` that returned `true`, whatever
operations follow, as long as none of them is a `deleteUserAccount` of the id given to the
new account, every further `registerUser` of that username and role returns `false` and
changes nothing. -/
theorem registerUser_duplicate (db : Database) (username password role : String) :
    ((∃ u ∈ db.users, u.username = username ∧ u.role = role) →
      registerUser db username password role = (false, db)) ∧
    (∀ db1 : Database, registerUser db username password role = (true, db1) →
      ∀ (ops : List Op) (db2 : Database),
        (∀ r, Op.deleteUserAccount db.users_auto r ∉ ops) → runOps db1 ops = some db2 →
        ∀ password2, registerUser db2 username password2 role = (false, db2)) := by
  refine ⟨registerUser_present db username password role, ?_⟩
  intro db1 h ops db2 hops hrun password2
  rcases registerUser_cases db username password role with e | ⟨_, _, _, e⟩
  · rw [e] at h; cases h
  · rw [e] at h
    simp only [Prod.mk.injEq, true_and] at h
    subst h
    have hp := runOps_account_stays db.users_auto username role ops _ db2 hrun hops
      ⟨⟨db.users_auto, username, password, role, 0⟩, by simp, rfl, rfl, rfl⟩
    obtain ⟨u, hu, _, hun, hr⟩ := hp
    exact registerUser_present db2 username password2 role ⟨u, hu, hun, hr⟩

/-- C5 at the sample database, and from the empty database through the sample
operations. -/
theorem registerUser_duplicate_witness :
    registerUser sampleDatabase "bob" "other" "student" = (false, sampleDatabase) ∧
    registerUser emptyDatabase "bob" "pw" "student"
      = (true, { emptyDatabase with users := [⟨1, "bob", "pw", "student", 0⟩]
                                    users_auto := 2 }) ∧
    runOps { emptyDatabase with users := [⟨1, "bob", "pw", "student", 0⟩]
                                users_auto := 2 } (sampleOps.drop 1) = some sampleDatabase ∧
    registerUser sampleDatabase "bob" "again" "student" = (false, sampleDatabase) :=
  ⟨(registerUser_duplicate sampleDatabase "bob" "other" "student").1
      ⟨⟨1, "bob", "pw", "student", 0⟩, by decide, rfl, rfl⟩,
    by decide, by decide,
    (registerUser_duplicate emptyDatabase "bob" "pw" "student").2
      { emptyDatabase with users := [⟨1, "bob", "pw", "student", 0⟩]
                           users_auto := 2 } (by decide)
      (sampleOps.drop 1) sampleDatabase (by simp [sampleOps, emptyDatabase]) (by decide)
      "again"⟩

/-- C6. In every database reached from the empty one by a sequence of `registerUser`,
`deleteUserAccount`, `addQuiz`, `addQuestion`, `deleteQuiz`, `deleteQuestion` and
`recordQuizAttempt`, two rows of `users` at different positions never have the same
`(username, role)` pair. -/
theorem username_role_unique (ops : List Op) (db : Database)
    (h : runOps emptyDatabase ops = some db) :
    db.users.Pairwise (fun a b => (a.username, a.role) ≠ (b.username, b.role)) := by
  have hnd := runOps_identities_nodup ops emptyDatabase db h (by simp [emptyDatabase])
  exact List.pairwise_map.mp hnd

/-- C6 at the sample database, which the sample operations reach. -/
theorem username_role_unique_witness :
    runOps emptyDatabase sampleOps = some sampleDatabase ∧
    sampleDatabase.users.Pairwise (fun a b => (a.username, a.role) ≠ (b.username, b.role)) :=
  ⟨by decide, username_role_unique sampleOps sampleDatabase (by decide)⟩

/-- C7, as stated, fails at the sample database, which has no account named by the 51
letters below and none named "AL": `registerUser` returns `false` for the first name,
wider than the column `username VARCHAR(50)`, and for the second, which the server
compares equal to the username of student "al". -/
theorem registerUser_both_roles_refused :
    (∀ a ∈ sampleDatabase.users,
      a.username ≠ "aaaaaaaaaaaaaaaaaaaaaaaaaaaaaaaaaaaaaaaaaaaaaaaaaaa") ∧
    registerUser sampleDatabase "aaaaaaaaaaaaaaaaaaaaaaaaaaaaaaaaaaaaaaaaaaaaaaaaaaa" "c1"
      "student" = (false, sampleDatabase) ∧
    (∀ a ∈ sampleDatabase.users, a.username ≠ "AL") ∧
    registerUser sampleDatabase "AL" "c1" "student" = (false, sampleDatabase) := by
  decide

/-- C7, amended. In a database with no account whose username the server compares equal
to `u` (and the `AUTO_INCREMENT` counter of `users` above the ids in use), for `u` of at
most 50 and `c1`, `c2` of at most 100 characters, `registerUser(u, c1, "student")`
followed by `registerUser(u, c2, "admin")` both return `true`, and `getUserRoles(u)` then
returns exactly two entries, the student one and the admin one, with different ids, in
the order of the server: the admin entry first when the search goes through the index. -/
theorem registerUser_both_roles (db : Database) (u c1 c2 : String)
    (hauto : ∀ a ∈ db.users, a.id < db.users_auto)
    (hno : ∀ a ∈ db.users, ¬ db.sqlEq a.username u)
    (hu : u.length ≤ 50) (h1 : c1.length ≤ 100) (h2 : c2.length ≤ 100) :
    (registerUser db u c1 "student").1 = true ∧
    (registerUser (registerUser db u c1 "student").2 u c2 "admin").1 = true ∧
    (getUserRoles (registerUser (registerUser db u c1 "student").2 u c2 "admin").2 u).Perm
      [⟨db.users_auto, "student"⟩, ⟨db.users_auto + 1, "admin"⟩] ∧
    (db.rowOrder = RowOrder.uniqueIndex →
      getUserRoles (registerUser (registerUser db u c1 "student").2 u c2 "admin").2 u
        = [⟨db.users_auto + 1, "admin"⟩, ⟨db.users_auto, "student"⟩]) ∧
    db.users_auto ≠ db.users_auto + 1 := by
  have e1 := registerUser_fresh db u c1 "student" (by simp [roleEnum]) hauto
    (fun ⟨a, ha, hm, _⟩ => hno a ha hm) hu h1
  rw [e1]
  have e2 := registerUser_fresh { db with
      users := db.users ++ [⟨db.users_auto, u, c1, "student", 0⟩]
      users_auto := db.users_auto + 1 } u c2 "admin" (by simp [roleEnum])
    (by
      intro a ha
      simp only [List.mem_append, List.mem_singleton] at ha
      rcases ha with ha | ha
      · have := hauto a ha
        show a.id < db.users_auto + 1
        omega
      · subst ha
        show db.users_auto < db.users_auto + 1
        omega)
    (by
      rintro ⟨a, ha, hm, hr⟩
      simp only [List.mem_append, List.mem_singleton] at ha
      rcases ha with ha | ha
      · exact hno a ha hm
      · subst ha
        simp at hr)
    hu h2
  simp only at e2 ⊢
  rw [e2]
  have hf : db.users.filter
      (fun a => decide (db.collation.weight a.username = db.collation.weight u)) = [] := by
    simp only [List.filter_eq_nil_iff, decide_eq_true_eq]
    exact hno
  have hrows : getUserRoles { db with
      users := db.users ++ [⟨db.users_auto, u, c1, "student", 0⟩] ++
        [⟨db.users_auto + 1, u, c2, "admin", 0⟩]
      users_auto := db.users_auto + 1 + 1 } u
      = (db.rowOrder.scan [⟨db.users_auto, u, c1, "student", 0⟩,
          ⟨db.users_auto + 1, u, c2, "admin", 0⟩]).map
          (fun a => { id := a.id, role := a.role }) := by
    simp [getUserRoles, Database.sqlEq, List.filter_append, hf, List.filter_cons]
  rw [hrows]
  refine ⟨by trivial, by trivial, ?_, ?_, by omega⟩
  · exact (scan_perm db.rowOrder _).map _
  · intro horder
    rw [horder]
    simp [RowOrder.scan, List.filter_cons]

/-- C7 at the sample database with the new username "carol": the admin entry comes
first. -/
theorem registerUser_both_roles_witness :
    (∀ a ∈ sampleDatabase.users, a.id < sampleDatabase.users_auto) ∧
    (∀ a ∈ sampleDatabase.users, ¬ sampleDatabase.sqlEq a.username "carol") ∧
    getUserRoles
        (registerUser (registerUser sampleDatabase "carol" "c1" "student").2
          "carol" "c2" "admin").2 "carol"
      = [⟨5, "admin"⟩, ⟨4, "student"⟩] :=
  ⟨by decide, by decide,
    (registerUser_both_roles sampleDatabase "carol" "c1" "c2" (by decide) (by decide)
      (by decide) (by decide) (by decide)).2.2.2.1 rfl⟩

theorem verifyPassword_true_iff (db : Database) (u c : String) :
    verifyPassword db u c = true ↔
      ∃ a ∈ db.users, db.sqlEq a.username u ∧ db.sqlEq a.password c := by
  unfold verifyPassword
  simp only [decide_eq_true_eq, gt_iff_lt, List.length_pos_iff_exists_mem]
  constructor
  · rintro ⟨a, ha⟩
    have := List.mem_of_mem_take ha
    rw [List.mem_filter] at this
    exact ⟨a, this.1, by simpa using this.2⟩
  · rintro ⟨a, ha, h⟩
    have hm : a ∈ db.users.filter
        (fun x => decide (db.sqlEq x.username u ∧ db.sqlEq x.password c)) :=
      List.mem_filter.mpr ⟨ha, by simpa using h⟩
    cases hl : db.users.filter
        (fun x => decide (db.sqlEq x.username u ∧ db.sqlEq x.password c)) with
    | nil => rw [hl] at hm; cases hm
    | cons x xs => exact ⟨x, by simp⟩

/-- C8, as stated, fails at the sample database: `verifyPassword("bob", "PW")` is `true`,
and no row of `users` has username "bob" and password "PW"; the server compares "PW"
equal to the stored "pw". -/
theorem verifyPassword_ignores_case :
    verifyPassword sampleDatabase "bob" "PW" = true ∧
    ¬ ∃ a ∈ sampleDatabase.users, a.username = "bob" ∧ a.password = "PW" := by
  decide

/-- C8, amended. `verifyPassword(u, c)` is `true` exactly when some row of `users` has a
username the server compares equal to `u` and a password it compares equal to `c`; under
a binary collation that is the row with username `u` and password `c`. In particular,
after `registerUser(u, c, "student")` in a database with no account whose username
compares equal to `u` (and the counter of `users` above the ids in use), for `u` of at
most 50 and `c` of at most 100 characters, `verifyPassword(u, c)` is `true` and
`verifyPassword(u, c2)` is `false` for every password `c2` that does not compare equal
to `c`. -/
theorem verifyPassword_matches (db : Database) (u c : String) :
    (verifyPassword db u c = true ↔
      ∃ a ∈ db.users, db.sqlEq a.username u ∧ db.sqlEq a.password c) ∧
    (db.collation = Collation.binary →
      (verifyPassword db u c = true ↔ ∃ a ∈ db.users, a.username = u ∧ a.password = c)) ∧
    ((∀ a ∈ db.users, a.id < db.users_auto) → (∀ a ∈ db.users, ¬ db.sqlEq a.username u) →
      u.length ≤ 50 → c.length ≤ 100 →
      verifyPassword (registerUser db u c "student").2 u c = true ∧
      ∀ c2, ¬ db.sqlEq c c2 → verifyPassword (registerUser db u c "student").2 u c2 = false) := by
  refine ⟨verifyPassword_true_iff db u c, ?_, ?_⟩
  · intro hbin
    rw [verifyPassword_true_iff]
    simp only [sqlEq_binary db hbin]
  · intro hauto hno hu hc
    have e1 := registerUser_fresh db u c "student" (by simp [roleEnum]) hauto
      (fun ⟨a, ha, hm, _⟩ => hno a ha hm) hu hc
    rw [e1]
    constructor
    · rw [verifyPassword_true_iff]
      exact ⟨⟨db.users_auto, u, c, "student", 0⟩, by simp, rfl, rfl⟩
    · intro c2 hc2
      rw [Bool.eq_false_iff, Ne, verifyPassword_true_iff]
      rintro ⟨a, ha, hm, hp⟩
      simp only [List.mem_append, List.mem_singleton] at ha
      rcases ha with ha | ha
      · exact hno a ha hm
      · subst ha
        exact hc2 hp

/-- C8 for student "bob" with password "pw" registered in the empty database, and for the
sample database under a binary collation, where "PW" is refused. -/
theorem verifyPassword_matches_witness :
    verifyPassword (registerUser emptyDatabase "bob" "pw" "student").2 "bob" "pw" = true ∧
    verifyPassword (registerUser emptyDatabase "bob" "pw" "student").2 "bob" "wrong" = false ∧
    verifyPassword sampleDatabase "bob" "pw2" = true ∧
    verifyPassword { sampleDatabase with collation := Collation.binary } "bob" "PW" = false :=
  ⟨((verifyPassword_matches emptyDatabase "bob" "pw").2.2 (by decide) (by decide)
      (by decide) (by decide)).1,
    ((verifyPassword_matches emptyDatabase "bob" "pw").2.2 (by decide) (by decide)
      (by decide) (by decide)).2 "wrong" (by decide),
    (verifyPassword_matches sampleDatabase "bob" "pw2").1.mpr
      ⟨⟨2, "bob", "pw2", "admin", 0⟩, by decide, by decide, by decide⟩,
    Bool.eq_false_iff.mpr (fun h =>
      absurd (((verifyPassword_matches { sampleDatabase with collation := Collation.binary }
        "bob" "PW").2.1 rfl).mp h) (by decide))⟩

/-! ## Entering and adding a question -/

theorem readCorrectOption_eq_find (size : Nat) (entries : List Int) :
    readCorrectOption size entries
      = entries.find? (fun e => decide (1 ≤ e ∧ e ≤ (size : Int))) := by
  induction entries with
  | nil => rfl
  | cons e rest ih =>
    by_cases h : 1 ≤ e ∧ e ≤ (size : Int)
    · simp [readCorrectOption, h]
    · simp only [readCorrectOption, if_neg h, ih, List.find?_cons, decide_eq_false h]

theorem readCorrectOption_range (size : Nat) (entries : List Int) (c : Int)
    (h : readCorrectOption size entries = some c) : 1 ≤ c ∧ c ≤ (size : Int) := by
  rw [readCorrectOption_eq_find] at h
  simpa using List.find?_some h

theorem readOptions_length (n : Nat) : ∀ lines : List String, (readOptions n lines).length ≤ n := by
  induction n with
  | zero => intro lines; simp [readOptions]
  | succ n ih =>
    intro lines
    cases lines with
    | nil => simp [readOptions]
    | cons l rest =>
      unfold readOptions
      split
      · simp only [List.length_cons]; have := ih rest; omega
      · simp

/-- Every question with two options or more is inserted by `addQuestion` as it is. -/
theorem addQuestion_inserts (db : Database) (quizId : Int) (q : Question)
    (o1 o2 : String) (rest : List String) (hq : q.options = o1 :: o2 :: rest)
    (hquiz : db.hasQuiz quizId = true) (hid : db.hasQuestion db.questions_auto = false) :
    addQuestion db quizId q = some (true, { db with
      questions := db.questions ++
        [⟨db.questions_auto, quizId, q.text, o1, o2, rest[0]?, rest[1]?, q.correctOption⟩]
      questions_auto := db.questions_auto + 1 }) := by
  unfold addQuestion sqlInsertQuestion
  rw [hq]
  simp only [List.getElem?_cons_zero, List.getElem?_cons_succ, List.length_cons]
  rw [if_pos ⟨hquiz, hid⟩]
  cases rest with
  | nil => simp
  | cons o3 rest2 =>
    cases rest2 with
    | nil => simp
    | cons o4 rest3 => simp

theorem addQuestion_few_options (db : Database) (quizId : Int) (q : Question)
    (h : q.options.length < 2) : addQuestion db quizId q = none := by
  obtain ⟨id, text, options, correctOption, quizId2⟩ := q
  simp only at h
  unfold addQuestion
  cases options with
  | nil => simp
  | cons o1 t =>
    cases t with
    | nil => simp
    | cons o2 rest => simp only [List.length_cons] at h; omega

/-- A call of `addQuestion` that returns `true` stored the first two options and, when
present, the third and the fourth, together with the given `correctOption`. -/
theorem addQuestion_true (db db1 : Database) (quizId : Int) (q : Question)
    (h : addQuestion db quizId q = some (true, db1)) :
    ∃ (o1 o2 : String) (rest : List String), q.options = o1 :: o2 :: rest ∧
      db1 = { db with
        questions := db.questions ++
          [⟨db.questions_auto, quizId, q.text, o1, o2, rest[0]?, rest[1]?, q.correctOption⟩]
        questions_auto := db.questions_auto + 1 } := by
  obtain ⟨id, text, options, correctOption, quizId2⟩ := q
  cases options with
  | nil => simp [addQuestion] at h
  | cons o1 t =>
    cases t with
    | nil => simp [addQuestion] at h
    | cons o2 rest =>
      refine ⟨o1, o2, rest, rfl, ?_⟩
      unfold addQuestion at h
      simp only [List.getElem?_cons_zero, List.getElem?_cons_succ, List.length_cons] at h
      split at h
      · rename_i db2 hi
        obtain ⟨_, _, e⟩ := sqlInsertQuestion_some _ _ _ _ _ _ _ _ _ hi
        simp only [Option.some.injEq, Prod.mk.injEq, true_and] at h
        rw [← h, e]
        cases rest with
        | nil => simp
        | cons o3 rest2 =>
          cases rest2 with
          | nil => simp
          | cons o4 rest3 => simp
      · simp at h

/-- Menu entry 5 leaves the database as it is or adds one question, whose `correct_option`
lies between 1 and the number of options stored with it. -/
theorem adminAddQuestion_row (db db1 : Database) (quizChoice : Int) (text : String)
    (optionLines : List String) (entries : List Int) (msg : String)
    (h : adminAddQuestion db quizChoice text optionLines entries = Run.returns (msg, db1)) :
    db1 = db ∨ ∃ row : QuestionRow, db1.questions = db.questions ++ [row] ∧
      1 ≤ row.correct_option ∧
      row.correct_option ≤ (((row.toQuestion row.quiz_id).options.length : Nat) : Int) := by
  unfold adminAddQuestion at h
  simp only at h
  split at h
  · simp only [Run.returns.injEq, Prod.mk.injEq] at h; exact Or.inl h.2.symm
  · split at h
    · split at h
      · cases h
      · rename_i quiz _
        split at h
        · cases h
        · rename_i q hq
          split at h
          · cases h
          · rename_i db2 ha
            simp only [Run.returns.injEq, Prod.mk.injEq] at h
            obtain ⟨o1, o2, rest, ho, e⟩ := addQuestion_true db db2 quiz.id q ha
            have hr : 1 ≤ q.correctOption ∧ q.correctOption ≤ (q.options.length : Int) := by
              unfold enterQuestion at hq
              simp only at hq
              split at hq
              · cases hq
              · rename_i c hc
                cases hq
                exact readCorrectOption_range _ _ _ hc
            have hlen : q.options.length ≤ 4 := by
              unfold enterQuestion at hq
              simp only at hq
              split at hq
              · cases hq
              · cases hq
                exact readOptions_length 4 optionLines
            right
            refine ⟨_, by rw [← h.2, e], hr.1, ?_⟩
            rw [ho] at hr hlen
            simp only [List.length_cons] at hr hlen
            simp only [QuestionRow.toQuestion]
            match rest, hr, hlen with
            | [], hr, _ => simpa using hr.2
            | [_], hr, _ => simpa using hr.2
            | [_, _], hr, _ => simpa using hr.2
            | _ :: _ :: _ :: _, _, hlen => simp only [List.length_cons] at hlen; omega
          · rename_i db2 ha
            simp only [Run.returns.injEq, Prod.mk.injEq] at h
            rcases addQuestion_cases db db2 quiz.id q false ha with ⟨_, e⟩ | ⟨e, _⟩
            · left; rw [← h.2, e]
            · cases e
    · simp only [Run.returns.injEq, Prod.mk.injEq] at h; exact Or.inl h.2.symm

/-- C9, as stated, fails: for quiz 1 of the sample database, a question with two options
and `correctOption = 7` is not rejected by `addQuestion`; the call returns `true` and the
row is in table `questions` afterwards. -/
theorem addQuestion_out_of_range_accepted :
    (7 : Int) > (["a", "b"] : List String).length ∧
    addQuestion sampleDatabase 1 ⟨0, "Q2", ["a", "b"], 7, 1⟩ = some (true, { sampleDatabase with
      questions := sampleDatabase.questions ++ [⟨2, 1, "Q2", "a", "b", none, none, 7⟩]
      questions_auto := 3 }) := by
  decide

/-- C9, amended. `addQuestion` does not look at the value of `correctOption`: for an
existing quiz and a question with two options or more it inserts the row with the given
`correctOption` and returns `true`. The bound is kept where the question is entered: the
entry loop takes the first entered number between 1 and the number of options, so every
question built by the menu has `1 ≤ correctOption ≤ options.size()`, and every row that
menu entry 5 adds has `correct_option` between 1 and the number of its options. -/
theorem addQuestion_range_checked_at_entry :
    (∀ (db : Database) (quizId : Int) (q : Question) (o1 o2 : String) (rest : List String),
      q.options = o1 :: o2 :: rest → db.hasQuiz quizId = true →
      db.hasQuestion db.questions_auto = false →
      addQuestion db quizId q = some (true, { db with
        questions := db.questions ++
          [⟨db.questions_auto, quizId, q.text, o1, o2, rest[0]?, rest[1]?, q.correctOption⟩]
        questions_auto := db.questions_auto + 1 })) ∧
    (∀ (size : Nat) (entries : List Int), readCorrectOption size entries
      = entries.find? (fun e => decide (1 ≤ e ∧ e ≤ (size : Int)))) ∧
    (∀ (text : String) (optionLines : List String) (entries : List Int) (quizId : Int)
      (q : Question), enterQuestion text optionLines entries quizId = some q →
      1 ≤ q.correctOption ∧ q.correctOption ≤ (q.options.length : Int)) ∧
    (∀ (db db1 : Database) (quizChoice : Int) (text : String) (optionLines : List String)
      (entries : List Int) (msg : String),
      adminAddQuestion db quizChoice text optionLines entries = Run.returns (msg, db1) →
      db1 = db ∨ ∃ row : QuestionRow, db1.questions = db.questions ++ [row] ∧
        1 ≤ row.correct_option ∧
        row.correct_option ≤ (((row.toQuestion row.quiz_id).options.length : Nat) : Int)) := by
  refine ⟨addQuestion_inserts, readCorrectOption_eq_find, ?_, adminAddQuestion_row⟩
  intro text optionLines entries quizId q h
  unfold enterQuestion at h
  simp only at h
  split at h
  · cases h
  · rename_i c hc
    cases h
    exact readCorrectOption_range _ _ _ hc

/-- C9, amended, at quiz 1 of the sample database and at an entry with the numbers 0, 9
and 2 typed for a question with two options. -/
theorem addQuestion_range_checked_at_entry_witness :
    addQuestion sampleDatabase 1 ⟨0, "Q2", ["a", "b"], 7, 1⟩ = some (true, { sampleDatabase with
      questions := sampleDatabase.questions ++ [⟨2, 1, "Q2", "a", "b", none, none, 7⟩]
      questions_auto := 3 }) ∧
    enterQuestion "Q3" ["A", "B", ""] [0, 9, 2] 1 = some ⟨0, "Q3", ["A", "B"], 2, 1⟩ ∧
    ((1 : Int) ≤ 2 ∧ (2 : Int) ≤ ((["A", "B"] : List String).length : Int)) :=
  ⟨addQuestion_range_checked_at_entry.1 sampleDatabase 1 ⟨0, "Q2", ["a", "b"], 7, 1⟩
      "a" "b" [] rfl (by decide) (by decide),
    by decide,
    addQuestion_range_checked_at_entry.2.2.1 "Q3" ["A", "B", ""] [0, 9, 2] 1
      ⟨0, "Q3", ["A", "B"], 2, 1⟩ (by decide)⟩

/-- C10. The code at the failing input. A question with one option (or none) makes
`addQuestion` read `getOptions()[1]` (or `getOptions()[0]`) past the end of the vector,
whatever the database, the quiz and the other fields; nothing is rejected. The menu
builds such a question: one option line "A", an empty line, correct option 1, and menu
entry 5 then runs into that read. (The entry loop never keeps more than four options.) -/
theorem addQuestion_single_option_reads_past_end (db : Database) (quizId id : Int)
    (text option1 : String) (correctOption quizId2 : Int) (optionLines : List String) :
    addQuestion db quizId ⟨id, text, [option1], correctOption, quizId2⟩ = none ∧
    addQuestion db quizId ⟨id, text, [], correctOption, quizId2⟩ = none ∧
    enterQuestion "Q" ["A", ""] [1] 1 = some ⟨0, "Q", ["A"], 1, 1⟩ ∧
    adminAddQuestion sampleDatabase 1 "Q" ["A", ""] [1] = Run.readsPastEnd ∧
    (readOptions 4 optionLines).length ≤ 4 := by
  refine ⟨?_, ?_, by decide, by decide, readOptions_length 4 optionLines⟩
  · exact addQuestion_few_options db quizId _ (by simp)
  · exact addQuestion_few_options db quizId _ (by simp)

/-! ## Key constraints in reachable databases -/

theorem sqlUpsertAttempt_cases (db db1 : Database) (s q v : Int)
    (h : sqlUpsertAttempt db s q v = some db1) :
    (db.hasAttempt s q = true ∧ db1 = { db with
      student_quizzes := db.student_quizzes.map (fun r =>
        if r.key = (s, q) then { r with score := v } else r) }) ∨
    (db.hasAttempt s q = false ∧ db.hasUser s = true ∧ db.hasQuiz q = true ∧ db1 = { db with
      student_quizzes := db.student_quizzes ++ [⟨s, q, v⟩] }) := by
  unfold sqlUpsertAttempt at h
  split at h
  · rename_i ha
    cases h
    exact Or.inl ⟨ha, rfl⟩
  · rename_i ha
    split at h
    · rename_i hu
      cases h
      simp only [Bool.and_eq_true] at hu
      exact Or.inr ⟨by simpa using ha, hu.1, hu.2, rfl⟩
    · cases h

theorem recordQuizAttempt_frame (db : Database) (s q v : Int) :
    (recordQuizAttempt db s q v).2.users_auto = db.users_auto ∧
    ((db.student_quizzes.map AttemptRow.key).Nodup →
      ((recordQuizAttempt db s q v).2.student_quizzes.map AttemptRow.key).Nodup) := by
  unfold recordQuizAttempt
  cases hu : sqlUpsertAttempt db s q v with
  | none => exact ⟨rfl, fun h => h⟩
  | some db1 =>
    rcases sqlUpsertAttempt_cases db db1 s q v hu with ⟨_, e⟩ | ⟨ha, _, _, e⟩
    · subst e
      refine ⟨rfl, fun h => ?_⟩
      show ((db.student_quizzes.map _).map AttemptRow.key).Nodup
      rw [upsert_map_keys]; exact h
    · subst e
      refine ⟨rfl, fun h => ?_⟩
      show ((db.student_quizzes ++ [(⟨s, q, v⟩ : AttemptRow)]).map AttemptRow.key).Nodup
      rw [List.map_append, List.nodup_append]
      refine ⟨h, by simp, ?_⟩
      intro a ha1 ha2
      simp only [List.map_cons, List.map_nil, List.mem_singleton] at ha2
      obtain ⟨r, hr, hk⟩ := List.mem_map.mp ha1
      have : db.hasAttempt s q = true :=
        (hasAttempt_iff db s q).mpr ⟨r, hr, by rw [hk, ha2]; rfl⟩
      rw [ha] at this
      cases this

theorem addQuestion_frame (db db1 : Database) (quizId : Int) (question : Question) (b : Bool)
    (h : addQuestion db quizId question = some (b, db1)) :
    db1.users_auto = db.users_auto ∧ db1.student_quizzes = db.student_quizzes := by
  rcases addQuestion_cases db db1 quizId question b h with ⟨_, e⟩ | ⟨_, _, row, _, _, e⟩
  · rw [e]; exact ⟨rfl, rfl⟩
  · rw [e]; exact ⟨rfl, rfl⟩

theorem addQuestions_frame (quizId : Int) (questions : List Question) :
    ∀ db db1 : Database, addQuestions db quizId questions = some db1 →
      db1.users_auto = db.users_auto ∧ db1.student_quizzes = db.student_quizzes := by
  induction questions with
  | nil => intro db db1 h; cases h; exact ⟨rfl, rfl⟩
  | cons q rest ih =>
    intro db db1 h
    unfold addQuestions at h
    split at h
    · cases h
    · rename_i b db2 hq
      have h1 := ih db2 db1 h
      have h2 := addQuestion_frame db db2 quizId q b hq
      exact ⟨h1.1.trans h2.1, h1.2.trans h2.2⟩

theorem addQuiz_frame (db db1 : Database) (quiz : Quiz) (b : Bool)
    (h : addQuiz db quiz = some (b, db1)) :
    db1.users_auto = db.users_auto ∧ db1.student_quizzes = db.student_quizzes := by
  unfold addQuiz at h
  split at h
  · cases h; exact ⟨rfl, rfl⟩
  · rename_i db2 hi
    simp only at h
    split at h
    · cases h
    · rename_i db3 hq
      cases h
      have h1 := addQuestions_frame _ _ db2 db1 hq
      unfold sqlInsertQuiz at hi
      split at hi
      · cases hi; exact h1
      · cases hi

theorem deleteUserAccount_database (db : Database) (userId : Int) (role : String) :
    (deleteUserAccount db userId role).2 = (sqlDeleteUsers db (fun u =>
      decide (u.id = userId) && (decide (role = "") || decide (u.role = role)))).2 := by
  unfold deleteUserAccount
  by_cases h : role = ""
  · simp only [h, if_true]
    split <;> simp [sqlDeleteUsers]
  · simp only [h, if_false]
    split <;> simp [sqlDeleteUsers, h]

theorem keysValid_step (db db1 : Database) (op : Op) (h : applyOp db op = some db1)
    (hv : db.keysValid) : db1.keysValid := by
  obtain ⟨hid, hauto, hkey⟩ := hv
  cases op with
  | registerUser username password role =>
    simp only [applyOp, Option.some.injEq] at h
    subst h
    rcases registerUser_cases db username password role with e | ⟨_, _, _, e⟩
    · rw [e]; exact ⟨hid, hauto, hkey⟩
    · rw [e]
      refine ⟨?_, ?_, hkey⟩
      · show ((db.users ++ [(⟨db.users_auto, username, password, role, 0⟩ : UserRow)]).map
          (fun u => u.id)).Nodup
        rw [List.map_append, List.nodup_append]
        refine ⟨hid, by simp, ?_⟩
        intro a ha1 ha2
        simp only [List.map_cons, List.map_nil, List.mem_singleton] at ha2
        obtain ⟨u, hu, hk⟩ := List.mem_map.mp ha1
        have := hauto u hu
        omega
      · intro u hu
        have hu2 : u ∈ db.users ++ [(⟨db.users_auto, username, password, role, 0⟩ : UserRow)] := hu
        show u.id < db.users_auto + 1
        rcases List.mem_append.mp hu2 with g | g
        · have := hauto u g; omega
        · simp only [List.mem_singleton] at g
          subst g
          show db.users_auto < db.users_auto + 1
          omega
  | deleteUserAccount userId role =>
    simp only [applyOp, Option.some.injEq] at h
    subst h
    have hu := deleteUserAccount_users db userId role
    have ha : (deleteUserAccount db userId role).2.users_auto = db.users_auto := by
      rw [deleteUserAccount_database]; rfl
    have hs : (deleteUserAccount db userId role).2.student_quizzes.Sublist
        db.student_quizzes := by
      rw [deleteUserAccount_database]; exact List.filter_sublist _
    refine ⟨?_, ?_, hkey.sublist (hs.map _)⟩
    · rw [hu]; exact hid.sublist ((List.filter_sublist _).map _)
    · intro u hmem
      rw [hu] at hmem
      rw [ha]
      exact hauto u (List.mem_filter.mp hmem).1
  | addQuiz quiz =>
    simp only [applyOp, Option.map_eq_some'] at h
    obtain ⟨⟨b, db2⟩, hq, e⟩ := h
    subst e
    have h1 := addQuiz_users db db2 quiz b hq
    have h2 := addQuiz_frame db db2 quiz b hq
    simp only at h1 h2 ⊢
    unfold Database.keysValid
    rw [h1, h2.1, h2.2]
    exact ⟨hid, hauto, hkey⟩
  | addQuestion quizId question =>
    simp only [applyOp, Option.map_eq_some'] at h
    obtain ⟨⟨b, db2⟩, hq, e⟩ := h
    subst e
    have h1 := addQuestion_users db db2 quizId question b hq
    have h2 := addQuestion_frame db db2 quizId question b hq
    simp only at h1 h2 ⊢
    unfold Database.keysValid
    rw [h1, h2.1, h2.2]
    exact ⟨hid, hauto, hkey⟩
  | deleteQuiz quizId =>
    simp only [applyOp, Option.some.injEq] at h
    subst h
    exact ⟨hid, hauto, hkey.sublist ((List.filter_sublist _).map _)⟩
  | deleteQuestion questionId =>
    simp only [applyOp, Option.some.injEq] at h
    subst h
    exact ⟨hid, hauto, hkey⟩
  | recordQuizAttempt s q v =>
    simp only [applyOp, Option.some.injEq] at h
    subst h
    have hf := recordQuizAttempt_frame db s q v
    unfold Database.keysValid
    rw [hf.1]
    refine ⟨?_, ?_, hf.2 hkey⟩
    · rcases recordQuizAttempt_users_cases db s q v with e | e
      · rw [e]; exact hid
      · rw [e, List.map_map]
        have : (fun u : UserRow => u.id) ∘ addToScore s v = fun u => u.id :=
          funext (addToScore_id s v)
        rw [this]; exact hid
    · intro u hu
      rcases recordQuizAttempt_users_cases db s q v with e | e
      · rw [e] at hu; exact hauto u hu
      · rw [e] at hu
        obtain ⟨w, hw, rfl⟩ := List.mem_map.mp hu
        rw [addToScore_id]; exact hauto w hw

/-- Every database reached from the empty one keeps the key constraints. -/
theorem runOps_keysValid (ops : List Op) :
    ∀ db db1 : Database, runOps db ops = some db1 → db.keysValid → db1.keysValid := by
  induction ops with
  | nil => intro db db1 h hv; cases h; exact hv
  | cons op rest ih =>
    intro db db1 h hv
    unfold runOps at h
    split at h
    · cases h
    · rename_i db2 ho
      exact ih db2 db1 h (keysValid_step db db2 op ho hv)

theorem emptyDatabase_keysValid : emptyDatabase.keysValid := by
  simp [Database.keysValid, emptyDatabase]

/-- The side conditions of the properties above (unique user ids, the counter of `users`
above the ids in use, unique attempt keys) hold in every database reached from the empty
one. -/
theorem reachable_keysValid (ops : List Op) (db : Database)
    (h : runOps emptyDatabase ops = some db) : db.keysValid :=
  runOps_keysValid ops emptyDatabase db h emptyDatabase_keysValid

/-! ## Deleting a quiz and deleting an account -/

theorem any_deleted_quiz (l : List QuizRow) (quizId k : Int) :
    (l.filter (fun q => decide (q.id = quizId))).any (fun q => decide (q.id = k)) = true ↔
      k = quizId ∧ ∃ q ∈ l, q.id = quizId := by
  simp only [List.any_eq_true, List.mem_filter, decide_eq_true_eq]
  constructor
  · rintro ⟨q, ⟨hq, h1⟩, h2⟩
    exact ⟨h2.symm.trans h1, q, hq, h1⟩
  · rintro ⟨hk, q, hq, h1⟩
    exact ⟨q, ⟨hq, h1⟩, h1.trans hk.symm⟩

theorem any_deleted_quiz_eq (l : List QuizRow) (quizId k : Int) (h : ∃ q ∈ l, q.id = k) :
    (l.filter (fun q => decide (q.id = quizId))).any (fun q => decide (q.id = k))
      = decide (k = quizId) := by
  rw [Bool.eq_iff_iff, any_deleted_quiz, decide_eq_true_eq]
  constructor
  · exact fun hk => hk.1
  · intro hk
    obtain ⟨q, hq, hid⟩ := h
    exact ⟨hk, q, hq, hid.trans hk⟩

/-- C11. In a database in which every question and every attempt belongs to an existing
quiz (the foreign keys), `deleteQuiz(quizId)` returns `true` and afterwards `quizzes`,
`questions` and `student_quizzes` are the tables from before without the quiz of id
`quizId`, without the questions of that `quiz_id` and without the attempts of that
`quiz_id`, every other row as it was and in the same order; `users` is as it was, scores
included. -/
theorem deleteQuiz_cascade (db : Database) (quizId : Int)
    (hq : ∀ r ∈ db.questions, db.hasQuiz r.quiz_id = true)
    (ha : ∀ r ∈ db.student_quizzes, db.hasQuiz r.quiz_id = true) :
    (deleteQuiz db quizId).1 = true ∧
    (deleteQuiz db quizId).2.quizzes
      = db.quizzes.filter (fun q => !decide (q.id = quizId)) ∧
    (deleteQuiz db quizId).2.questions
      = db.questions.filter (fun r => !decide (r.quiz_id = quizId)) ∧
    (deleteQuiz db quizId).2.student_quizzes
      = db.student_quizzes.filter (fun r => !decide (r.quiz_id = quizId)) ∧
    (deleteQuiz db quizId).2.users = db.users := by
  refine ⟨rfl, rfl, ?_, ?_, rfl⟩
  · show db.questions.filter _ = _
    apply List.filter_congr
    intro r hr
    rw [any_deleted_quiz_eq db.quizzes quizId r.quiz_id
      ((hasQuiz_iff db r.quiz_id).mp (hq r hr))]
  · show db.student_quizzes.filter _ = _
    apply List.filter_congr
    intro r hr
    rw [any_deleted_quiz_eq db.quizzes quizId r.quiz_id
      ((hasQuiz_iff db r.quiz_id).mp (ha r hr))]

/-- C11 at the sample database: quiz 2 goes with its one attempt, quiz 1 and its question
stay, and the score 4 of user 3 stays. -/
theorem deleteQuiz_cascade_witness :
    (∀ r ∈ sampleDatabase.questions, sampleDatabase.hasQuiz r.quiz_id = true) ∧
    (∀ r ∈ sampleDatabase.student_quizzes, sampleDatabase.hasQuiz r.quiz_id = true) ∧
    (deleteQuiz sampleDatabase 2).2.quizzes
      = sampleDatabase.quizzes.filter (fun q => !decide (q.id = 2)) ∧
    (deleteQuiz sampleDatabase 2).2.student_quizzes
      = sampleDatabase.student_quizzes.filter (fun r => !decide (r.quiz_id = 2)) ∧
    (deleteQuiz sampleDatabase 2).2
      = { sampleDatabase with quizzes := [⟨1, "Geo", "d", none⟩], student_quizzes := [] } :=
  ⟨by decide, by decide,
    (deleteQuiz_cascade sampleDatabase 2 (by decide) (by decide)).2.1,
    (deleteQuiz_cascade sampleDatabase 2 (by decide) (by decide)).2.2.2.1,
    by decide⟩

theorem deleteUserAccount_result (db : Database) (userId : Int) (role : String) :
    (deleteUserAccount db userId role).1 = true ↔
      ∃ u ∈ db.users, u.id = userId ∧ (role = "" ∨ u.role = role) := by
  unfold deleteUserAccount
  by_cases h : role = ""
  · simp only [h, if_true, sqlDeleteUsers]
    split
    · rename_i h0
      simp only [List.length_eq_zero, List.filter_eq_nil_iff, decide_eq_true_eq] at h0
      simp only [Bool.false_eq_true, false_iff, not_exists, not_and]
      intro u hu hid
      exact absurd hid (h0 u hu)
    · rename_i h0
      simp only [List.length_eq_zero, List.filter_eq_nil_iff, decide_eq_true_eq, not_forall,
        Classical.not_imp, not_not] at h0
      obtain ⟨u, hu, hid⟩ := h0
      simp only [true_iff]
      exact ⟨u, hu, hid, Or.inl trivial⟩
  · simp only [h, if_false, sqlDeleteUsers]
    split
    · rename_i h0
      simp only [List.length_eq_zero, List.filter_eq_nil_iff, Bool.and_eq_true,
        decide_eq_true_eq, not_and] at h0
      simp only [Bool.false_eq_true, false_iff, not_exists, not_and, false_or]
      intro u hu hid
      exact h0 u hu hid
    · rename_i h0
      simp only [List.length_eq_zero, List.filter_eq_nil_iff, Bool.and_eq_true,
        decide_eq_true_eq, not_and, not_forall, Classical.not_imp, not_not] at h0
      obtain ⟨u, hu, hid, hr⟩ := h0
      simp only [true_iff, false_or]
      exact ⟨u, hu, hid, hr⟩

theorem filter_unique_id (l : List UserRow) (u : UserRow) (cond : UserRow → Bool)
    (hnd : (l.map (fun x => x.id)).Nodup) (hu : u ∈ l) (hc : cond u = true)
    (hid : ∀ x ∈ l, cond x = true → x.id = u.id) : l.filter cond = [u] := by
  induction l with
  | nil => cases hu
  | cons x rest ih =>
    rw [List.map_cons, List.nodup_cons] at hnd
    rcases List.mem_cons.mp hu with e | e
    · subst e
      have hrest : rest.filter cond = [] := by
        rw [List.filter_eq_nil_iff]
        intro y hy hcy
        have := hid y (List.mem_cons_of_mem _ hy) hcy
        exact hnd.1 (List.mem_map.mpr ⟨y, hy, this⟩)
      rw [List.filter_cons_of_pos hc, hrest]
    · have hx : cond x ≠ true := by
        intro hcx
        have := hid x (List.mem_cons_self _ _) hcx
        exact hnd.1 (List.mem_map.mpr ⟨u, e, this.symm⟩)
      rw [List.filter_cons_of_neg hx]
      exact ih hnd.2 e (fun y hy => hid y (List.mem_cons_of_mem _ hy))

/-- C12. For a role that is not empty, `deleteUserAccount(userId, role)` returns `true`
exactly when some account has that id and that role; `users` afterwards is the table from
before without the rows of that id and role, every other row as it was; when `false` is
returned `users` is as it was; and with unique user ids (the primary key) a `true` means
that exactly one account left the table. -/
theorem deleteUserAccount_exact (db : Database) (userId : Int) (role : String)
    (hrole : role ≠ "") :
    ((deleteUserAccount db userId role).1 = true ↔
      ∃ u ∈ db.users, u.id = userId ∧ u.role = role) ∧
    (deleteUserAccount db userId role).2.users
      = db.users.filter (fun u => !(decide (u.id = userId) && decide (u.role = role))) ∧
    ((deleteUserAccount db userId role).1 = false →
      (deleteUserAccount db userId role).2.users = db.users) ∧
    ((db.users.map (fun u => u.id)).Nodup → (deleteUserAccount db userId role).1 = true →
      ∃ u ∈ db.users, u.id = userId ∧ u.role = role ∧
        db.users.Perm (u :: (deleteUserAccount db userId role).2.users)) := by
  have hres : (deleteUserAccount db userId role).1 = true ↔
      ∃ u ∈ db.users, u.id = userId ∧ u.role = role := by
    rw [deleteUserAccount_result]
    constructor
    · rintro ⟨u, hu, hid, h | h⟩
      · exact absurd h hrole
      · exact ⟨u, hu, hid, h⟩
    · rintro ⟨u, hu, hid, h⟩
      exact ⟨u, hu, hid, Or.inr h⟩
  have husers : (deleteUserAccount db userId role).2.users
      = db.users.filter (fun u => !(decide (u.id = userId) && decide (u.role = role))) := by
    rw [deleteUserAccount_users]
    simp [hrole]
  refine ⟨hres, husers, ?_, ?_⟩
  · intro hf
    rw [husers, List.filter_eq_self]
    intro u hu
    have hno : ¬ ∃ u ∈ db.users, u.id = userId ∧ u.role = role := by
      rw [← hres, hf]; simp
    by_cases h1 : u.id = userId
    · by_cases h2 : u.role = role
      · exact absurd ⟨u, hu, h1, h2⟩ hno
      · simp [h2]
    · simp [h1]
  · intro hnd ht
    obtain ⟨u, hu, hid, hr⟩ := hres.mp ht
    refine ⟨u, hu, hid, hr, ?_⟩
    rw [husers]
    have h1 : db.users.filter (fun x => decide (x.id = userId) && decide (x.role = role)) = [u] :=
      filter_unique_id db.users u _ hnd hu (by simp [hid, hr])
        (fun x _ hx => by
          simp only [Bool.and_eq_true, decide_eq_true_eq] at hx
          rw [hx.1, hid])
    have h2 := List.filter_append_perm
      (fun x : UserRow => decide (x.id = userId) && decide (x.role = role)) db.users
    rw [h1] at h2
    exact h2.symm

/-- C12 at the sample database: the student account of "bob" is deleted and the admin
account of "bob" stays; a wrong role deletes nothing. -/
theorem deleteUserAccount_exact_witness :
    (deleteUserAccount sampleDatabase 1 "student").1 = true ∧
    (deleteUserAccount sampleDatabase 1 "student").2.users
      = [⟨2, "bob", "pw2", "admin", 0⟩, ⟨3, "al", "x", "student", 4⟩] ∧
    (deleteUserAccount sampleDatabase 1 "admin").1 = false ∧
    (deleteUserAccount sampleDatabase 1 "admin").2.users = sampleDatabase.users :=
  ⟨(deleteUserAccount_exact sampleDatabase 1 "student" (by decide)).1.mpr
      ⟨⟨1, "bob", "pw", "student", 0⟩, by decide, rfl, rfl⟩,
    by decide, by decide,
    (deleteUserAccount_exact sampleDatabase 1 "admin" (by decide)).2.2.1 (by decide)⟩

/-! ## Taking a quiz -/

theorem startQuizLoop_count (questions : List Question) :
    ∀ (choices : List Int) (score : Int), questions.length ≤ choices.length →
      startQuizLoop questions choices score
        = some (score + (correctAnswers questions choices : Int)) := by
  induction questions with
  | nil => intro choices score _; simp [startQuizLoop, correctAnswers]
  | cons q rest ih =>
    intro choices score h
    cases choices with
    | nil => simp at h
    | cons c cs =>
      have hlen : rest.length ≤ cs.length := by simpa using h
      have ih1 := ih cs (score + 1) hlen
      have ih0 := ih cs score hlen
      unfold correctAnswers at ih1 ih0 ⊢
      simp only [startQuizLoop, Question.checkAnswer, List.zip_cons_cons, List.countP_cons]
      by_cases hc : c = q.correctOption
      · simp only [hc, decide_True, if_true, ih1]
        congr 1
        push_cast
        ring
      · simp only [hc, decide_False, if_false, Bool.false_eq_true, ih0]
        simp

/-- C14. With one choice for every question, `startQuiz` ends, the score it prints is
the number of positions at which the choice equals the correct option of the question, and
the score of the student object grows by that number. The number is at most the number of
questions, and equals it exactly when every choice is the correct one. -/
theorem startQuiz_counts_correct (quiz : Quiz) (student : Student) (choices : List Int)
    (hlen : choices.length = quiz.questions.length) :
    quiz.startQuiz student choices = some
      ((correctAnswers quiz.questions choices : Int),
       { student with score := student.score + (correctAnswers quiz.questions choices : Int) }) ∧
    correctAnswers quiz.questions choices ≤ quiz.questions.length ∧
    (correctAnswers quiz.questions choices = quiz.questions.length ↔
      ∀ p ∈ quiz.questions.zip choices, p.2 = p.1.correctOption) := by
  have hz : (quiz.questions.zip choices).length = quiz.questions.length := by
    simp [List.length_zip, hlen]
  refine ⟨?_, ?_, ?_⟩
  · unfold Quiz.startQuiz
    rw [startQuizLoop_count quiz.questions choices 0 (by omega)]
    simp [Student.updateScore]
  · unfold correctAnswers
    rw [← hz]; exact List.countP_le_length _
  · unfold correctAnswers
    rw [← hz, List.countP_eq_length]
    simp

/-- C14 at the sample quiz: the choices 1, 1, 4 against the correct options 1, 2, 4 give
the score 2. -/
theorem startQuiz_counts_correct_witness :
    ([1, 1, 4] : List Int).length = sampleQuiz.questions.length ∧
    sampleQuiz.startQuiz ⟨1, "bob", "pw", 5⟩ [1, 1, 4] = some (2, ⟨1, "bob", "pw", 7⟩) ∧
    correctAnswers sampleQuiz.questions [1, 1, 4] = 2 :=
  ⟨by decide,
    (startQuiz_counts_correct sampleQuiz ⟨1, "bob", "pw", 5⟩ [1, 1, 4] (by decide)).1,
    by decide⟩

/-- What menu entry 1 passes to `recordQuizAttempt`: the member `score` after
`updateScore`, that is the score of the session before the quiz plus the score of the
quiz. -/
theorem studentTakeQuiz_call (db db1 : Database) (student student1 : Student)
    (quizChoice : Int) (choices : List Int) (taken : QuizTaken)
    (h : studentTakeQuiz db student quizChoice choices
      = Run.returns (student1, some taken, db1)) :
    taken.call.score = student.score + taken.printedScore ∧
    taken.call.studentId = student.id ∧ student1.score = taken.call.score ∧
    db1 = (recordQuizAttempt db taken.call.studentId taken.call.quizId taken.call.score).2 := by
  unfold studentTakeQuiz at h
  simp only at h
  split at h
  · simp at h
  · split at h
    · split at h
      · cases h
      · rename_i quiz _
        cases hs : quiz.startQuiz student choices with
        | none => simp [hs] at h
        | some r =>
          obtain ⟨printed, s1⟩ := r
          simp only [hs, Run.returns.injEq, Prod.mk.injEq, Option.some.injEq] at h
          obtain ⟨h1, h2, h3⟩ := h
          unfold Quiz.startQuiz at hs
          cases hl : startQuizLoop quiz.questions choices 0 with
          | none => simp [hl] at hs
          | some sc =>
            simp only [hl, Option.some.injEq, Prod.mk.injEq] at hs
            subst h1 h2 h3
            obtain ⟨e1, e2⟩ := hs
            subst e1 e2
            exact ⟨rfl, rfl, rfl, rfl⟩
    · simp at h

/-- C13. The code at the failing input: student 1 of the sample database logs in (the
student entry is the second one listed; score 0 in the session) and takes quiz 1, which
has one question, twice with the correct answer. Each time `startQuiz` prints the score
1; the first call is `recordQuizAttempt(1, 1, 1)`, the second
`recordQuizAttempt(1, 1, 2)`: the member `score`, the total of the session, is passed.
The total in `users` ends at 3 and the stored attempt says 2 for a quiz with one
question. -/
theorem studentSession_second_quiz :
    login sampleDatabase "bob" "pw" [2]
      = Run.returns (LoginResult.loginSuccessful (UserObject.student ⟨1, "bob", "pw", 0⟩)) ∧
    studentSession sampleDatabase ⟨1, "bob", "pw", 0⟩ [(1, [1]), (1, [1])]
      = Run.returns (⟨1, "bob", "pw", 2⟩,
          [⟨1, ⟨1, 1, 1⟩⟩, ⟨1, ⟨1, 1, 2⟩⟩],
          (recordQuizAttempt (recordQuizAttempt sampleDatabase 1 1 1).2 1 1 2).2) ∧
    (getAllQuizzes sampleDatabase).map (fun quiz => (quiz.id, quiz.questions.length))
      = [(1, 1), (2, 0)] ∧
    (recordQuizAttempt (recordQuizAttempt sampleDatabase 1 1 1).2 1 1 2).2.scoreOf 1 = some 3 ∧
    (recordQuizAttempt (recordQuizAttempt sampleDatabase 1 1 1).2 1 1 2).2.student_quizzes
      = [⟨3, 2, 4⟩, ⟨1, 1, 2⟩] := by
  refine ⟨by decide, by decide, by decide, by decide, by decide⟩

/-! ## Login -/

theorem readRoleChoice_eq_find (size : Nat) (choices : List Int) :
    readRoleChoice size choices
      = choices.find? (fun c => decide (c > 0 ∧ c ≤ (size : Int))) := by
  induction choices with
  | nil => rfl
  | cons c rest ih =>
    by_cases h : c > 0 ∧ c ≤ (size : Int)
    · simp [readRoleChoice, h]
    · simp only [readRoleChoice, if_neg h, ih, List.find?_cons, decide_eq_false h]

theorem readRoleChoice_range (size : Nat) (choices : List Int) (c : Int)
    (h : readRoleChoice size choices = some c) : 0 < c ∧ c ≤ (size : Int) := by
  rw [readRoleChoice_eq_find] at h
  simpa using List.find?_some h

theorem verifyPassword_roles_nonempty (db : Database) (username password : String)
    (h : verifyPassword db username password = true) :
    (getAllRolesForUser db username).isEmpty = false := by
  obtain ⟨a, ha, hu, _⟩ := (verifyPassword_true_iff db username password).mp h
  have hm : a ∈ db.rowOrder.scan
      (db.users.filter (fun u => decide (db.sqlEq u.username username))) :=
    (mem_scan _ _ a).mpr (List.mem_filter.mpr ⟨ha, by simpa using hu⟩)
  unfold getAllRolesForUser
  cases hl : db.rowOrder.scan
      (db.users.filter (fun u => decide (db.sqlEq u.username username))) with
  | nil => rw [hl] at hm; cases hm
  | cons x xs => simp

theorem makeUser_identity (entry : UserRole) (username password : String) :
    (makeUser entry username password).getId = entry.id ∧
    (entry.role ∈ roleEnum → (makeUser entry username password).getRole = entry.role) := by
  unfold makeUser
  by_cases h : entry.role = "admin"
  · simp [h, UserObject.getId, UserObject.getRole]
  · simp only [h, if_false, UserObject.getId, UserObject.getRole, true_and]
    intro hr
    simp only [roleEnum, List.mem_cons, List.mem_singleton, List.not_mem_nil, or_false] at hr
    rcases hr with e | e
    · exact absurd e h
    · exact e.symm

/-- C15. With `verifyPassword` false the login ends with "Invalid username or password"
and no user object. With `verifyPassword` true and one role entry for the username, the
user object of that entry is built whatever is typed afterwards. With several entries the
first typed number between 1 and the number of entries is taken, numbers outside are
passed over, and the user object is built from the entry at that position of
`getAllRolesForUser` (the same list as `getUserRoles(username)`). The object has the id
of the entry and, for a role of the enumeration, its role. -/
theorem login_protocol (db : Database) (username password : String) (choices : List Int) :
    (verifyPassword db username password = false →
      login db username password choices
        = Run.returns LoginResult.invalidUsernameOrPassword) ∧
    (verifyPassword db username password = true →
      ∀ entry, getAllRolesForUser db username = [entry] →
        login db username password choices
          = Run.returns (LoginResult.loginSuccessful (makeUser entry username password))) ∧
    (verifyPassword db username password = true →
      1 < (getAllRolesForUser db username).length →
      (∀ c, choices.find? (fun c => decide (0 < c ∧
          c ≤ ((getAllRolesForUser db username).length : Int))) = some c →
        ∃ entry, (getAllRolesForUser db username)[(c - 1).toNat]? = some entry ∧
          login db username password choices
            = Run.returns (LoginResult.loginSuccessful (makeUser entry username password))) ∧
      (choices.find? (fun c => decide (0 < c ∧
          c ≤ ((getAllRolesForUser db username).length : Int))) = none →
        login db username password choices = Run.waitsForInput)) ∧
    (∀ entry : UserRole, (makeUser entry username password).getId = entry.id ∧
      (entry.role ∈ roleEnum → (makeUser entry username password).getRole = entry.role)) ∧
    getAllRolesForUser db username = getUserRoles db username := by
  refine ⟨?_, ?_, ?_, fun entry => makeUser_identity entry username password, rfl⟩
  · intro h
    simp [login, h]
  · intro h entry he
    simp [login, h, he]
  · intro h hlen
    have hne : (getAllRolesForUser db username).isEmpty = false :=
      verifyPassword_roles_nonempty db username password h
    have h1 : ¬ (getAllRolesForUser db username).length = 1 := by omega
    constructor
    · intro c hc
      have hr : readRoleChoice (getAllRolesForUser db username).length choices = some c := by
        rw [readRoleChoice_eq_find]; exact hc
      have hrange := readRoleChoice_range _ _ _ hr
      have hidx : (c - 1).toNat < (getAllRolesForUser db username).length := by omega
      refine ⟨(getAllRolesForUser db username)[(c - 1).toNat], List.getElem?_eq_getElem hidx, ?_⟩
      unfold login
      simp only [h, hne, h1, hr, Bool.not_true, Bool.false_eq_true, if_false]
      rw [List.getElem?_eq_getElem hidx]
    · intro hc
      have hr : readRoleChoice (getAllRolesForUser db username).length choices = none := by
        rw [readRoleChoice_eq_find]; exact hc
      simp [login, h, hne, h1, hr]

/-- C15 at the sample database: a wrong password, the single account of "al", and the
two accounts of "bob" with the entries 0, 3 and then 2, the position of the student
entry. -/
theorem login_protocol_witness :
    login sampleDatabase "al" "wrong" [] = Run.returns LoginResult.invalidUsernameOrPassword ∧
    login sampleDatabase "al" "x" []
      = Run.returns (LoginResult.loginSuccessful (UserObject.student ⟨3, "al", "x", 0⟩)) ∧
    (∃ entry, (getAllRolesForUser sampleDatabase "bob")[((2 : Int) - 1).toNat]? = some entry ∧
      login sampleDatabase "bob" "pw" [0, 3, 2]
        = Run.returns (LoginResult.loginSuccessful (makeUser entry "bob" "pw"))) ∧
    login sampleDatabase "bob" "pw" [0, 3, 2]
      = Run.returns (LoginResult.loginSuccessful (UserObject.student ⟨1, "bob", "pw", 0⟩)) :=
  ⟨(login_protocol sampleDatabase "al" "wrong" []).1 (by decide),
    (login_protocol sampleDatabase "al" "x" []).2.1 (by decide) ⟨3, "student"⟩ (by decide),
    ((login_protocol sampleDatabase "bob" "pw" [0, 3, 2]).2.2.1 (by decide) (by decide)).1 2
      (by decide),
    by decide⟩

/-- C20. The code at the failing input: in the sample database "bob" has the student
account 1 with password "pw" and the admin account 2 with password "pw2". Whatever the
collation and the order in which the server returns rows, the admin entry stands at some
position `k` of `getAllRolesForUser("bob")`, and the login with "bob", "pw" and the
selection `k` ends with the admin object of id 2, an account whose stored password is
"pw2", which the server does not compare equal to "pw". On the sample database itself the
admin entry is the first one, so the selection is 1. `getUserRoles("bob", "pw")`, which
`deleteAccountFlow` uses, holds the student entry only. -/
theorem login_other_credential (collation : Collation) (rowOrder : RowOrder) :
    (∃ k : Int,
      (getAllRolesForUser { sampleDatabase with collation := collation, rowOrder := rowOrder }
        "bob")[(k - 1).toNat]? = some ⟨2, "admin"⟩ ∧
      login { sampleDatabase with collation := collation, rowOrder := rowOrder } "bob" "pw" [k]
        = Run.returns (LoginResult.loginSuccessful (UserObject.admin ⟨2, "bob", "pw"⟩))) ∧
    sampleDatabase.users.filter (fun u => decide (u.id = 2))
      = [⟨2, "bob", "pw2", "admin", 0⟩] ∧
    ¬ collation.weight "pw2" = collation.weight "pw" ∧
    getUserRolesWithPassword
        { sampleDatabase with collation := collation, rowOrder := rowOrder } "bob" "pw"
      = [⟨1, "student"⟩] ∧
    getAllRolesForUser sampleDatabase "bob" = [⟨2, "admin"⟩, ⟨1, "student"⟩] ∧
    login sampleDatabase "bob" "pw" [1]
      = Run.returns (LoginResult.loginSuccessful (UserObject.admin ⟨2, "bob", "pw"⟩)) := by
  refine ⟨?_, by decide, ?_, ?_, by decide, by decide⟩
  · cases collation <;> cases rowOrder
    · exact ⟨2, by decide, by decide⟩
    · exact ⟨1, by decide, by decide⟩
    · exact ⟨2, by decide, by decide⟩
    · exact ⟨1, by decide, by decide⟩
  · cases collation <;> decide
  · cases collation <;> cases rowOrder <;> decide

/-! ## Deleting an account through the menu -/

theorem refsValid_sqlDeleteUsers (db : Database) (cond : UserRow → Bool)
    (hv : db.refsValid) : (sqlDeleteUsers db cond).2.refsValid := by
  obtain ⟨hq, ha⟩ := hv
  refine ⟨hq, ?_⟩
  intro r hr
  have hr2 : r ∈ db.student_quizzes.filter (fun r =>
      !(db.users.filter cond).any (fun u => decide (u.id = r.student_id))) := hr
  rw [List.mem_filter] at hr2
  obtain ⟨hmem, hkeep⟩ := hr2
  refine ⟨?_, (ha r hmem).2⟩
  obtain ⟨u, hu, hid⟩ := (hasUser_iff db r.student_id).mp (ha r hmem).1
  rw [hasUser_iff]
  refine ⟨u, ?_, hid⟩
  show u ∈ db.users.filter (fun u => !cond u)
  rw [List.mem_filter]
  refine ⟨hu, ?_⟩
  by_cases hc : cond u = true
  · exfalso
    have : (db.users.filter cond).any (fun u => decide (u.id = r.student_id)) = true := by
      rw [List.any_eq_true]
      exact ⟨u, List.mem_filter.mpr ⟨hu, hc⟩, by simpa using hid⟩
    rw [this] at hkeep
    cases hkeep
  · simpa using hc

theorem refsValid_sqlDeleteQuiz (db : Database) (quizId : Int) (hv : db.refsValid) :
    (sqlDeleteQuiz db quizId).refsValid := by
  obtain ⟨hq, ha⟩ := hv
  have key : ∀ k : Int, db.hasQuiz k = true →
      (db.quizzes.filter (fun q => decide (q.id = quizId))).any
        (fun q => decide (q.id = k)) = false →
      (sqlDeleteQuiz db quizId).hasQuiz k = true := by
    intro k hk hno
    rw [any_deleted_quiz_eq db.quizzes quizId k ((hasQuiz_iff db k).mp hk)] at hno
    have hne : k ≠ quizId := by simpa using hno
    obtain ⟨q, hq1, hq2⟩ := (hasQuiz_iff db k).mp hk
    rw [hasQuiz_iff]
    refine ⟨q, ?_, hq2⟩
    show q ∈ db.quizzes.filter (fun q => !decide (q.id = quizId))
    rw [List.mem_filter]
    exact ⟨hq1, by simpa [hq2] using hne⟩
  constructor
  · intro r hr
    have hr2 : r ∈ db.questions.filter (fun r =>
        !(db.quizzes.filter (fun q => decide (q.id = quizId))).any
          (fun q => decide (q.id = r.quiz_id))) := hr
    rw [List.mem_filter] at hr2
    exact key r.quiz_id (hq r hr2.1) (by simpa using hr2.2)
  · intro r hr
    have hr2 : r ∈ db.student_quizzes.filter (fun r =>
        !(db.quizzes.filter (fun q => decide (q.id = quizId))).any
          (fun q => decide (q.id = r.quiz_id))) := hr
    rw [List.mem_filter] at hr2
    exact ⟨(ha r hr2.1).1, key r.quiz_id (ha r hr2.1).2 (by simpa using hr2.2)⟩

theorem refsValid_addQuestion (db db1 : Database) (quizId : Int) (question : Question)
    (b : Bool) (h : addQuestion db quizId question = some (b, db1)) (hv : db.refsValid) :
    db1.refsValid := by
  rcases addQuestion_cases db db1 quizId question b h with ⟨_, e⟩ | ⟨_, hquiz, row, hrow, _, e⟩
  · rw [e]; exact hv
  · rw [e]
    obtain ⟨hq, ha⟩ := hv
    refine ⟨?_, ha⟩
    intro r hr
    have hr2 : r ∈ db.questions ++ [row] := hr
    rcases List.mem_append.mp hr2 with g | g
    · exact hq r g
    · simp only [List.mem_singleton] at g
      rw [g, hrow]; exact hquiz

theorem refsValid_addQuestions (quizId : Int) (questions : List Question) :
    ∀ db db1 : Database, addQuestions db quizId questions = some db1 →
      db.refsValid → db1.refsValid := by
  induction questions with
  | nil => intro db db1 h hv; cases h; exact hv
  | cons q rest ih =>
    intro db db1 h hv
    unfold addQuestions at h
    split at h
    · cases h
    · rename_i b db2 hq
      exact ih db2 db1 h (refsValid_addQuestion db db2 quizId q b hq hv)

theorem refsValid_addQuiz (db db1 : Database) (quiz : Quiz) (b : Bool)
    (h : addQuiz db quiz = some (b, db1)) (hv : db.refsValid) : db1.refsValid := by
  unfold addQuiz at h
  split at h
  · cases h; exact hv
  · rename_i db2 hi
    simp only at h
    split at h
    · cases h
    · rename_i db3 hq
      cases h
      refine refsValid_addQuestions _ _ db2 db1 hq ?_
      unfold sqlInsertQuiz at hi
      split at hi
      · cases hi
        obtain ⟨h1, h2⟩ := hv
        have mono : ∀ k, db.hasQuiz k = true →
            Database.hasQuiz { db with
              quizzes := db.quizzes ++ [⟨db.quizzes_auto, quiz.title, quiz.description, none⟩]
              quizzes_auto := db.quizzes_auto + 1 } k = true := by
          intro k hk
          rw [hasQuiz_iff] at hk ⊢
          obtain ⟨q, hq1, hq2⟩ := hk
          exact ⟨q, List.mem_append_left _ hq1, hq2⟩
        exact ⟨fun r hr => mono _ (h1 r hr), fun r hr => ⟨(h2 r hr).1, mono _ (h2 r hr).2⟩⟩
      · cases hi

theorem hasUser_map_addToScore (db : Database) (s v k : Int) :
    Database.hasUser { db with users := db.users.map (addToScore s v) } k = db.hasUser k := by
  rw [Bool.eq_iff_iff, hasUser_iff, hasUser_iff]
  constructor
  · rintro ⟨u, hu, hid⟩
    obtain ⟨w, hw, rfl⟩ := List.mem_map.mp hu
    exact ⟨w, hw, by rw [← hid, addToScore_id]⟩
  · rintro ⟨u, hu, hid⟩
    exact ⟨addToScore s v u, List.mem_map.mpr ⟨u, hu, rfl⟩, by rw [addToScore_id]; exact hid⟩

theorem refsValid_recordQuizAttempt (db : Database) (s q v : Int) (hv : db.refsValid) :
    (recordQuizAttempt db s q v).2.refsValid := by
  unfold recordQuizAttempt
  cases hu : sqlUpsertAttempt db s q v with
  | none => exact hv
  | some db1 =>
    obtain ⟨hq, ha⟩ := hv
    have step : ∀ l : List AttemptRow,
        (∀ r ∈ l, db.hasUser r.student_id = true ∧ db.hasQuiz r.quiz_id = true) →
        Database.refsValid (sqlAddScore { db with student_quizzes := l } s v) := by
      intro l hl
      refine ⟨hq, ?_⟩
      intro r hr
      have := hl r hr
      refine ⟨?_, this.2⟩
      show Database.hasUser { db with users := db.users.map (addToScore s v) } _ = true
      rw [hasUser_map_addToScore]; exact this.1
    rcases sqlUpsertAttempt_cases db db1 s q v hu with ⟨_, e⟩ | ⟨_, hs, hquiz, e⟩
    · subst e
      apply step
      intro r hr
      obtain ⟨w, hw, rfl⟩ := List.mem_map.mp hr
      have := ha w hw
      split
      · exact this
      · exact this
    · subst e
      apply step
      intro r hr
      rcases List.mem_append.mp hr with g | g
      · exact ha r g
      · simp only [List.mem_singleton] at g
        rw [g]; exact ⟨hs, hquiz⟩

theorem refsValid_step (db db1 : Database) (op : Op) (h : applyOp db op = some db1)
    (hv : db.refsValid) : db1.refsValid := by
  cases op with
  | registerUser username password role =>
    simp only [applyOp, Option.some.injEq] at h
    subst h
    rcases registerUser_cases db username password role with e | ⟨_, _, _, e⟩
    · rw [e]; exact hv
    · rw [e]
      obtain ⟨hq, ha⟩ := hv
      refine ⟨hq, fun r hr => ⟨?_, (ha r hr).2⟩⟩
      have := (ha r hr).1
      rw [hasUser_iff] at this ⊢
      obtain ⟨u, hu, hid⟩ := this
      exact ⟨u, List.mem_append_left _ hu, hid⟩
  | deleteUserAccount userId role =>
    simp only [applyOp, Option.some.injEq] at h
    subst h
    rw [deleteUserAccount_database]
    exact refsValid_sqlDeleteUsers db _ hv
  | addQuiz quiz =>
    simp only [applyOp, Option.map_eq_some'] at h
    obtain ⟨⟨b, db2⟩, hq, e⟩ := h
    subst e
    exact refsValid_addQuiz db db2 quiz b hq hv
  | addQuestion quizId question =>
    simp only [applyOp, Option.map_eq_some'] at h
    obtain ⟨⟨b, db2⟩, hq, e⟩ := h
    subst e
    exact refsValid_addQuestion db db2 quizId question b hq hv
  | deleteQuiz quizId =>
    simp only [applyOp, Option.some.injEq] at h
    subst h
    exact refsValid_sqlDeleteQuiz db quizId hv
  | deleteQuestion questionId =>
    simp only [applyOp, Option.some.injEq] at h
    subst h
    obtain ⟨hq, ha⟩ := hv
    exact ⟨fun r hr => hq r (List.mem_of_mem_filter hr), ha⟩
  | recordQuizAttempt s q v =>
    simp only [applyOp, Option.some.injEq] at h
    subst h
    exact refsValid_recordQuizAttempt db s q v hv

theorem runOps_refsValid (ops : List Op) :
    ∀ db db1 : Database, runOps db ops = some db1 → db.refsValid → db1.refsValid := by
  induction ops with
  | nil => intro db db1 h hv; cases h; exact hv
  | cons op rest ih =>
    intro db db1 h hv
    unfold runOps at h
    split at h
    · cases h
    · rename_i db2 ho
      exact ih db2 db1 h (refsValid_step db db2 op ho hv)

theorem emptyDatabase_refsValid : emptyDatabase.refsValid := by
  simp [Database.refsValid, emptyDatabase]

/-- The attempts of a deleted account go with it. -/
theorem deleteUserAccount_attempts (db : Database) (userId : Int) (role : String)
    (h : (deleteUserAccount db userId role).1 = true) :
    ∀ r ∈ (deleteUserAccount db userId role).2.student_quizzes, r.student_id ≠ userId := by
  obtain ⟨u, hu, hid, hr⟩ := (deleteUserAccount_result db userId role).mp h
  rw [deleteUserAccount_database]
  intro r hmem heq
  have hr2 : r ∈ db.student_quizzes.filter (fun r =>
      !(db.users.filter (fun u => decide (u.id = userId) &&
        (decide (role = "") || decide (u.role = role)))).any
          (fun u => decide (u.id = r.student_id))) := hmem
  rw [List.mem_filter] at hr2
  have : (db.users.filter (fun u => decide (u.id = userId) &&
      (decide (role = "") || decide (u.role = role)))).any
        (fun u => decide (u.id = r.student_id)) = true := by
    rw [List.any_eq_true]
    refine ⟨u, List.mem_filter.mpr ⟨hu, ?_⟩, by simp [hid, heq]⟩
    rcases hr with e | e
    · simp [hid, e]
    · simp [hid, e]
  rw [this] at hr2
  exact absurd hr2.2 (by simp)

/-- A question for a quiz that does not exist is refused. -/
theorem addQuestion_missing_quiz (db : Database) (quizId : Int) (q : Question)
    (hquiz : db.hasQuiz quizId = false) (hopts : 2 ≤ q.options.length) :
    addQuestion db quizId q = some (false, db) := by
  obtain ⟨id, text, options, correctOption, quizId2⟩ := q
  cases options with
  | nil => simp at hopts
  | cons o1 t =>
    cases t with
    | nil => simp at hopts
    | cons o2 rest =>
      unfold addQuestion sqlInsertQuestion
      simp [hquiz]

/-- An attempt for a user or a quiz that does not exist is refused. -/
theorem recordQuizAttempt_missing (db : Database) (s q v : Int) (hv : db.refsValid)
    (h : db.hasUser s = false ∨ db.hasQuiz q = false) :
    recordQuizAttempt db s q v = (false, db) := by
  have hno : db.hasAttempt s q = false := by
    rw [Bool.eq_false_iff]
    intro ha
    obtain ⟨r, hr, hk⟩ := (hasAttempt_iff db s q).mp ha
    have := hv.2 r hr
    simp only [AttemptRow.key, Prod.mk.injEq] at hk
    rw [hk.1, hk.2] at this
    rcases h with e | e
    · rw [e] at this; exact absurd this.1 (by simp)
    · rw [e] at this; exact absurd this.2 (by simp)
  unfold recordQuizAttempt sqlUpsertAttempt
  rcases h with e | e
  · simp [hno, e]
  · simp [hno, e]

/-- C17. In every database reached from the empty one by a sequence of the seven
operations, every question has the `quiz_id` of an existing quiz and every attempt the
`student_id` of an existing user and the `quiz_id` of an existing quiz. In such a
database: after a `deleteUserAccount` that returned `true` no attempt of that user id is
left; `addQuestion` for a quiz id that does not exist returns `false` and leaves the
database as it is (for a question with two options or more, and in any case it returns
nothing else); `recordQuizAttempt` for a user id or a quiz id that does not exist returns
`false` and leaves the database, scores included, as it is. -/
theorem references_valid (ops : List Op) (db : Database)
    (h : runOps emptyDatabase ops = some db) :
    (∀ r ∈ db.questions, db.hasQuiz r.quiz_id = true) ∧
    (∀ r ∈ db.student_quizzes, db.hasUser r.student_id = true ∧ db.hasQuiz r.quiz_id = true) ∧
    (∀ (userId : Int) (role : String), (deleteUserAccount db userId role).1 = true →
      ∀ r ∈ (deleteUserAccount db userId role).2.student_quizzes, r.student_id ≠ userId) ∧
    (∀ (quizId : Int) (q : Question), db.hasQuiz quizId = false →
      (2 ≤ q.options.length → addQuestion db quizId q = some (false, db)) ∧
      (∀ r, addQuestion db quizId q = some r → r = (false, db))) ∧
    (∀ s q v : Int, db.hasUser s = false ∨ db.hasQuiz q = false →
      recordQuizAttempt db s q v = (false, db)) := by
  have hv := runOps_refsValid ops emptyDatabase db h emptyDatabase_refsValid
  refine ⟨hv.1, hv.2, deleteUserAccount_attempts db, ?_, fun s q v => recordQuizAttempt_missing db s q v hv⟩
  intro quizId q hquiz
  refine ⟨addQuestion_missing_quiz db quizId q hquiz, ?_⟩
  rintro ⟨b, db1⟩ hr
  rcases addQuestion_cases db db1 quizId q b hr with ⟨e1, e2⟩ | ⟨_, hq, _⟩
  · rw [e1, e2]
  · rw [hquiz] at hq; cases hq

/-- C17 at the sample database, which the sample operations reach: quiz 9 and user 9 do
not exist. -/
theorem references_valid_witness :
    runOps emptyDatabase sampleOps = some sampleDatabase ∧
    (∀ r ∈ sampleDatabase.student_quizzes,
      sampleDatabase.hasUser r.student_id = true ∧ sampleDatabase.hasQuiz r.quiz_id = true) ∧
    addQuestion sampleDatabase 9 ⟨0, "Q", ["a", "b"], 1, 9⟩ = some (false, sampleDatabase) ∧
    recordQuizAttempt sampleDatabase 9 1 5 = (false, sampleDatabase) ∧
    (deleteUserAccount sampleDatabase 3 "student").2.student_quizzes = [] :=
  ⟨by decide,
    (references_valid sampleOps sampleDatabase (by decide)).2.1,
    ((references_valid sampleOps sampleDatabase (by decide)).2.2.2.1 9
      ⟨0, "Q", ["a", "b"], 1, 9⟩ (by decide)).1 (by decide),
    (references_valid sampleOps sampleDatabase (by decide)).2.2.2.2 9 1 5
      (Or.inl (by decide)),
    by decide⟩

/-! ## Creating a quiz and listing it -/

theorem addQuestionOn_true (db : Database) (quizId : Int) (q : Question) :
    addQuestionOn true db quizId q = addQuestion db quizId q := by
  unfold addQuestionOn addQuestion
  simp

theorem addQuestionOn_false (db : Database) (quizId : Int) (q : Question)
    (hopts : 2 ≤ q.options.length) : addQuestionOn false db quizId q = some (false, db) := by
  obtain ⟨id, text, options, correctOption, quizId2⟩ := q
  cases options with
  | nil => simp at hopts
  | cons o1 t =>
    cases t with
    | nil => simp at hopts
    | cons o2 rest => simp [addQuestionOn]

theorem addQuestion_toRow (db : Database) (quizId : Int) (q : Question)
    (hopts : 2 ≤ q.options.length) (hquiz : db.hasQuiz quizId = true)
    (hid : db.hasQuestion db.questions_auto = false) :
    addQuestion db quizId q = some (true, { db with
      questions := db.questions ++ [q.toRow db.questions_auto quizId]
      questions_auto := db.questions_auto + 1 }) := by
  obtain ⟨id, text, options, correctOption, quizId2⟩ := q
  cases options with
  | nil => simp at hopts
  | cons o1 t =>
    cases t with
    | nil => simp at hopts
    | cons o2 rest =>
      rw [addQuestion_inserts db quizId _ o1 o2 rest rfl hquiz hid]
      simp [Question.toRow]

theorem hasQuestion_counter (db : Database) (h : ∀ r ∈ db.questions, r.id < db.questions_auto) :
    db.hasQuestion db.questions_auto = false := by
  rw [Bool.eq_false_iff]
  intro hh
  simp only [Database.hasQuestion, List.any_eq_true, decide_eq_true_eq] at hh
  obtain ⟨r, hr, hid⟩ := hh
  have := h r hr
  omega

theorem hasQuiz_counter (db : Database) (h : ∀ q ∈ db.quizzes, q.id < db.quizzes_auto) :
    db.hasQuiz db.quizzes_auto = false := by
  rw [Bool.eq_false_iff]
  intro hh
  obtain ⟨r, hr, hid⟩ := (hasQuiz_iff db _).mp hh
  have := h r hr
  omega

theorem questionRows_bounds (quizId : Int) (qs : List Question) :
    ∀ id : Int, ∀ r ∈ questionRows quizId id qs,
      r.quiz_id = quizId ∧ id ≤ r.id ∧ r.id < id + qs.length := by
  induction qs with
  | nil => intro id r hr; cases hr
  | cons q rest ih =>
    intro id r hr
    simp only [questionRows, List.mem_cons] at hr
    rcases hr with e | e
    · subst e
      simp only [Question.toRow, List.length_cons]
      refine ⟨trivial, le_refl _, ?_⟩
      push_cast
      omega
    · have := ih (id + 1) r e
      simp only [List.length_cons]
      push_cast
      omega

/-- The loop over the questions: the accepted ones are stored in order under the next
ids, the others leave no trace. -/
theorem addQuestionsOn_rows (quizId : Int) (qs : List Question) :
    ∀ (flags : List Bool) (db : Database), (∀ q ∈ qs, 2 ≤ q.options.length) →
      db.hasQuiz quizId = true → (∀ r ∈ db.questions, r.id < db.questions_auto) →
      addQuestionsOn db quizId flags qs = some { db with
        questions := db.questions ++
          questionRows quizId db.questions_auto (acceptedQuestions flags qs)
        questions_auto := db.questions_auto + (acceptedQuestions flags qs).length } := by
  induction qs with
  | nil =>
    intro flags db _ _ _
    simp [addQuestionsOn, acceptedQuestions, questionRows]
  | cons q rest ih =>
    intro flags db hopts hquiz hauto
    have hq : 2 ≤ q.options.length := hopts q (List.mem_cons_self _ _)
    have hrest : ∀ x ∈ rest, 2 ≤ x.options.length :=
      fun x hx => hopts x (List.mem_cons_of_mem _ hx)
    unfold addQuestionsOn acceptedQuestions
    cases hf : flags.headD true with
    | false =>
      rw [addQuestionOn_false db quizId q hq]
      simp only [Bool.false_eq_true, if_false]
      exact ih flags.tail db hrest hquiz hauto
    | true =>
      rw [addQuestionOn_true, addQuestion_toRow db quizId q hq hquiz
        (hasQuestion_counter db hauto)]
      simp only [if_true]
      have hstep := ih flags.tail { db with
          questions := db.questions ++ [q.toRow db.questions_auto quizId]
          questions_auto := db.questions_auto + 1 } hrest hquiz (by
        intro r hr
        have hr2 : r ∈ db.questions ++ [q.toRow db.questions_auto quizId] := hr
        show r.id < db.questions_auto + 1
        rcases List.mem_append.mp hr2 with g | g
        · have := hauto r g; omega
        · simp only [List.mem_singleton] at g
          rw [g]
          show db.questions_auto < db.questions_auto + 1
          omega)
      rw [hstep]
      simp only [questionRows, List.length_cons, List.append_assoc, List.singleton_append]
      congr 2
      push_cast
      ring

theorem addQuestionsOn_nil_flags (quizId : Int) (qs : List Question) :
    ∀ db : Database, addQuestionsOn db quizId [] qs = addQuestions db quizId qs := by
  induction qs with
  | nil => intro db; rfl
  | cons q rest ih =>
    intro db
    unfold addQuestionsOn addQuestions
    simp only [List.headD_nil, List.tail_nil, addQuestionOn_true]
    cases addQuestion db quizId q with
    | none => rfl
    | some r => exact ih r.2

theorem acceptedQuestions_nil_flags (qs : List Question) : acceptedQuestions [] qs = qs := by
  induction qs with
  | nil => rfl
  | cons q rest ih => simp [acceptedQuestions, ih]

theorem addQuizOn_all (db : Database) (quiz : Quiz) :
    addQuizOn true [] db quiz = addQuiz db quiz := by
  unfold addQuizOn addQuiz
  simp only [if_true]
  cases sqlInsertQuiz db quiz.title quiz.description with
  | none => rfl
  | some db1 => simp only [addQuestionsOn_nil_flags]

/-- The quiz row goes in and the accepted questions follow. -/
theorem addQuizOn_accepted (db : Database) (quiz : Quiz) (flags : List Bool)
    (hquiz : db.hasQuiz db.quizzes_auto = false)
    (hauto : ∀ r ∈ db.questions, r.id < db.questions_auto)
    (hopts : ∀ q ∈ quiz.questions, 2 ≤ q.options.length) :
    addQuizOn true flags db quiz = some (true, { db with
      quizzes := db.quizzes ++ [⟨db.quizzes_auto, quiz.title, quiz.description, none⟩]
      quizzes_auto := db.quizzes_auto + 1
      questions := db.questions ++ questionRows db.quizzes_auto db.questions_auto
        (acceptedQuestions flags quiz.questions)
      questions_auto := db.questions_auto
        + (acceptedQuestions flags quiz.questions).length }) := by
  unfold addQuizOn sqlInsertQuiz
  simp only [if_true, hquiz]
  have hstep := addQuestionsOn_rows db.quizzes_auto quiz.questions flags { db with
      quizzes := db.quizzes ++ [⟨db.quizzes_auto, quiz.title, quiz.description, none⟩]
      quizzes_auto := db.quizzes_auto + 1 } hopts (by
    rw [hasQuiz_iff]
    exact ⟨⟨db.quizzes_auto, quiz.title, quiz.description, none⟩, by simp, rfl⟩) hauto
  rw [hstep]

/-- C19. `addQuiz` with statements that can fail for a reason outside the schema
(`addQuizOn`; with nothing failing it is `addQuiz`). When the insert of the quiz row goes
through, `true` is returned whatever happens to the questions: the quiz row is in
`quizzes`, and `questions` gained the rows of exactly the questions whose insert was
accepted, in order; the refused ones left nothing and the result does not show them. When
the insert of the quiz row fails, `false` is returned and the database is as it was. (The
questions have two options or more, and the counter of `questions` is above the ids in
use.) -/
theorem addQuizOn_reports_quiz_row (db : Database) (quiz : Quiz) (quizAccepted : Bool)
    (flags : List Bool) :
    (quizAccepted = true → db.hasQuiz db.quizzes_auto = false →
      (∀ r ∈ db.questions, r.id < db.questions_auto) →
      (∀ q ∈ quiz.questions, 2 ≤ q.options.length) →
      addQuizOn quizAccepted flags db quiz = some (true, { db with
        quizzes := db.quizzes ++ [⟨db.quizzes_auto, quiz.title, quiz.description, none⟩]
        quizzes_auto := db.quizzes_auto + 1
        questions := db.questions ++ questionRows db.quizzes_auto db.questions_auto
          (acceptedQuestions flags quiz.questions)
        questions_auto := db.questions_auto
          + (acceptedQuestions flags quiz.questions).length })) ∧
    (quizAccepted = false ∨ db.hasQuiz db.quizzes_auto = true →
      addQuizOn quizAccepted flags db quiz = some (false, db)) ∧
    addQuizOn true [] db quiz = addQuiz db quiz := by
  refine ⟨?_, ?_, addQuizOn_all db quiz⟩
  · intro ha hquiz hauto hopts
    rw [ha]
    exact addQuizOn_accepted db quiz flags hquiz hauto hopts
  · intro h
    unfold addQuizOn sqlInsertQuiz
    rcases h with e | e
    · simp [e]
    · simp [e]

/-- C19 at the sample database and the sample quiz: the insert of the second question
fails, the call returns `true`, the quiz and the questions one and three are stored; with
the quiz insert failing nothing is stored. -/
theorem addQuizOn_reports_quiz_row_witness :
    addQuizOn true [true, false, true] sampleDatabase sampleQuiz = some (true,
      { sampleDatabase with
        quizzes := sampleDatabase.quizzes ++ [⟨3, "Capitals", "c", none⟩]
        quizzes_auto := 4
        questions := sampleDatabase.questions ++
          [⟨2, 3, "q1", "a", "b", none, none, 1⟩, ⟨3, 3, "q3", "a", "b", some "c", some "d", 4⟩]
        questions_auto := 4 }) ∧
    addQuizOn false [true, false, true] sampleDatabase sampleQuiz
      = some (false, sampleDatabase) :=
  ⟨((addQuizOn_reports_quiz_row sampleDatabase sampleQuiz true [true, false, true]).1 rfl
      (by decide) (by decide) (by decide)).trans (by decide),
    (addQuizOn_reports_quiz_row sampleDatabase sampleQuiz false [true, false, true]).2.1
      (Or.inl rfl)⟩

theorem toQuestion_toRow (q : Question) (id quizId : Int)
    (h : 2 ≤ q.options.length ∧ q.options.length ≤ 4) :
    (q.toRow id quizId).toQuestion quizId = { q with id := id, quizId := quizId } := by
  obtain ⟨qid, text, options, correctOption, quizId2⟩ := q
  simp only at h
  match options, h with
  | [], h => simp at h
  | [_], h => simp at h
  | [_, _], _ => simp [Question.toRow, QuestionRow.toQuestion]
  | [_, _, _], _ => simp [Question.toRow, QuestionRow.toQuestion]
  | [_, _, _, _], _ => simp [Question.toRow, QuestionRow.toQuestion]
  | _ :: _ :: _ :: _ :: _ :: _, h => simp at h

theorem questionRows_listed (quizId : Int) (qs : List Question)
    (h : ∀ q ∈ qs, 2 ≤ q.options.length ∧ q.options.length ≤ 4) :
    ∀ id : Int, ((questionRows quizId id qs).map (fun r => r.toQuestion quizId)).map
        (fun q => (q.text, q.options, q.correctOption))
      = qs.map (fun q => (q.text, q.options, q.correctOption)) := by
  induction qs with
  | nil => intro id; rfl
  | cons q rest ih =>
    intro id
    simp only [questionRows, List.map_cons]
    rw [ih (fun x hx => h x (List.mem_cons_of_mem _ hx)) (id + 1),
      toQuestion_toRow q id quizId (h q (List.mem_cons_self _ _))]

theorem filter_questionRows_same (quizId id : Int) (qs : List Question) :
    (questionRows quizId id qs).filter (fun r => decide (r.quiz_id = quizId))
      = questionRows quizId id qs := by
  rw [List.filter_eq_self]
  intro r hr
  simpa using (questionRows_bounds quizId qs id r hr).1

theorem filter_questionRows_other (quizId id k : Int) (qs : List Question) (hk : k ≠ quizId) :
    (questionRows quizId id qs).filter (fun r => decide (r.quiz_id = k)) = [] := by
  rw [List.filter_eq_nil_iff]
  intro r hr
  have := (questionRows_bounds quizId qs id r hr).1
  simp only [decide_eq_true_eq]
  rw [this]
  exact fun e => hk e.symm

theorem acceptedQuestions_mem (qs : List Question) :
    ∀ (flags : List Bool), ∀ q ∈ acceptedQuestions flags qs, q ∈ qs := by
  induction qs with
  | nil => intro flags q hq; simp [acceptedQuestions] at hq
  | cons x rest ih =>
    intro flags q hq
    unfold acceptedQuestions at hq
    split at hq
    · rcases List.mem_cons.mp hq with e | e
      · rw [e]; exact List.mem_cons_self _ _
      · exact List.mem_cons_of_mem _ (ih flags.tail q e)
    · exact List.mem_cons_of_mem _ (ih flags.tail q hq)

theorem acceptedQuestions_all (qs : List Question) :
    ∀ (flags : List Bool), (∀ f ∈ flags, f = true) → acceptedQuestions flags qs = qs := by
  induction qs with
  | nil => intro flags _; rfl
  | cons x rest ih =>
    intro flags hall
    have hhead : flags.headD true = true := by
      cases flags with
      | nil => rfl
      | cons f fs => exact hall f (List.mem_cons_self _ _)
    have htail : ∀ f ∈ flags.tail, f = true :=
      fun f hf => hall f (List.mem_of_mem_tail hf)
    simp only [acceptedQuestions, hhead, if_true, ih flags.tail htail]

/-- C18, as stated, fails at the sample database and the sample quiz, whose three questions
have two, three and four options: the insert of the second question is refused by the
server, `addQuiz` still returns `true`, and `getAllQuizzes` then lists the new quiz with
the questions "q1" and "q3" only. -/
theorem addQuizOn_listed_question_missing :
    (∀ q ∈ sampleQuiz.questions, 2 ≤ q.options.length ∧ q.options.length ≤ 4) ∧
    sampleQuiz.questions.map (fun q => q.text) = ["q1", "q2", "q3"] ∧
    (addQuizOn true [true, false, true] sampleDatabase sampleQuiz).map
        (fun r => (r.1, (getAllQuizzes r.2).drop 2))
      = some (true, [⟨3, "Capitals", "c",
          [⟨2, "q1", ["a", "b"], 1, 3⟩, ⟨3, "q3", ["a", "b", "c", "d"], 4, 3⟩]⟩]) := by
  decide

/-- C18, amended. `addQuiz` with question inserts that the server may refuse
(`addQuizOn`; with nothing refused it is `addQuiz`), in a database whose counters of
`quizzes` and `questions` are above the ids in use and whose questions belong to existing
quizzes, for a quiz whose questions have between two and four options: when the insert of
the quiz row goes through, `true` is returned, and `getAllQuizzes` afterwards is the list
from before followed by one quiz with the given title and description whose questions
are, in the given order, those whose insert went through, with the given texts, option
lists and correct options. When every insert went through, they are all the given
questions. -/
theorem addQuizOn_listed (db : Database) (quiz : Quiz) (flags : List Bool)
    (hquizzes : ∀ q ∈ db.quizzes, q.id < db.quizzes_auto)
    (hquestions : ∀ r ∈ db.questions, r.id < db.questions_auto)
    (hrefs : ∀ r ∈ db.questions, db.hasQuiz r.quiz_id = true)
    (hopts : ∀ q ∈ quiz.questions, 2 ≤ q.options.length ∧ q.options.length ≤ 4) :
    (∃ (db2 : Database) (listed : Quiz),
      addQuizOn true flags db quiz = some (true, db2) ∧
      getAllQuizzes db2 = getAllQuizzes db ++ [listed] ∧
      listed.title = quiz.title ∧ listed.description = quiz.description ∧
      listed.questions.map (fun q => (q.text, q.options, q.correctOption))
        = (acceptedQuestions flags quiz.questions).map
            (fun q => (q.text, q.options, q.correctOption)) ∧
      ((∀ f ∈ flags, f = true) →
        listed.questions.map (fun q => (q.text, q.options, q.correctOption))
          = quiz.questions.map (fun q => (q.text, q.options, q.correctOption)))) ∧
    addQuizOn true [] db quiz = addQuiz db quiz := by
  refine ⟨?_, addQuizOn_all db quiz⟩
  have hadd := addQuizOn_accepted db quiz flags (hasQuiz_counter db hquizzes) hquestions
    (fun q hq => (hopts q hq).1)
  have hlisted := questionRows_listed db.quizzes_auto (acceptedQuestions flags quiz.questions)
    (fun q hq => hopts q (acceptedQuestions_mem quiz.questions flags q hq)) db.questions_auto
  refine ⟨_, ⟨db.quizzes_auto, quiz.title, quiz.description,
    (questionRows db.quizzes_auto db.questions_auto
      (acceptedQuestions flags quiz.questions)).map
      (fun r => r.toQuestion db.quizzes_auto)⟩, hadd, ?_, rfl, rfl, hlisted, ?_⟩
  · unfold getAllQuizzes
    simp only [List.map_append, List.map_cons, List.map_nil, List.filter_append]
    congr 1
    · apply List.map_congr_left
      intro row hrow
      have hne : row.id ≠ db.quizzes_auto := by
        have := hquizzes row hrow
        omega
      rw [filter_questionRows_other db.quizzes_auto db.questions_auto row.id
        (acceptedQuestions flags quiz.questions) hne]
      simp
    · have hold : db.questions.filter (fun r => decide (r.quiz_id = db.quizzes_auto)) = [] := by
        rw [List.filter_eq_nil_iff]
        intro r hr
        obtain ⟨q, hq, hid⟩ := (hasQuiz_iff db r.quiz_id).mp (hrefs r hr)
        have := hquizzes q hq
        simp only [decide_eq_true_eq]
        omega
      rw [hold, filter_questionRows_same]
      simp
  · intro hall
    rw [hlisted, acceptedQuestions_all quiz.questions flags hall]

/-- C18 at the sample database and the sample quiz, with every insert going through. -/
theorem addQuizOn_listed_witness :
    (∀ q ∈ sampleDatabase.quizzes, q.id < sampleDatabase.quizzes_auto) ∧
    (∀ q ∈ sampleQuiz.questions, 2 ≤ q.options.length ∧ q.options.length ≤ 4) ∧
    (∃ (db2 : Database) (listed : Quiz),
      addQuizOn true [true, true, true] sampleDatabase sampleQuiz = some (true, db2) ∧
      getAllQuizzes db2 = getAllQuizzes sampleDatabase ++ [listed] ∧
      listed.title = sampleQuiz.title ∧ listed.description = sampleQuiz.description ∧
      listed.questions.map (fun q => (q.text, q.options, q.correctOption))
        = sampleQuiz.questions.map (fun q => (q.text, q.options, q.correctOption))) ∧
    (addQuiz sampleDatabase sampleQuiz).map (fun r => (getAllQuizzes r.2).drop 2)
      = some [⟨3, "Capitals", "c",
          [⟨2, "q1", ["a", "b"], 1, 3⟩, ⟨3, "q2", ["a", "b", "c"], 2, 3⟩,
           ⟨4, "q3", ["a", "b", "c", "d"], 4, 3⟩]⟩] :=
  ⟨by decide, by decide,
    (fun ⟨db2, listed, h1, h2, h3, h4, _, h6⟩ =>
      ⟨db2, listed, h1, h2, h3, h4, h6 (by decide)⟩)
      (addQuizOn_listed sampleDatabase sampleQuiz [true, true, true] (by decide) (by decide)
        (by decide) (by decide)).1,
    by decide⟩

/-! ## Counters of the catalog in reachable databases -/

theorem catalogKeysValid_addQuestion (db db1 : Database) (quizId : Int) (question : Question)
    (b : Bool) (h : addQuestion db quizId question = some (b, db1))
    (hv : db.catalogKeysValid) : db1.catalogKeysValid := by
  rcases addQuestion_cases db db1 quizId question b h with ⟨_, e⟩ | ⟨_, _, row, _, hid, e⟩
  · rw [e]; exact hv
  · rw [e]
    obtain ⟨h1, h2⟩ := hv
    refine ⟨h1, ?_⟩
    intro r hr
    have hr2 : r ∈ db.questions ++ [row] := hr
    show r.id < db.questions_auto + 1
    rcases List.mem_append.mp hr2 with g | g
    · have := h2 r g; omega
    · simp only [List.mem_singleton] at g
      rw [g, hid]; omega

theorem catalogKeysValid_addQuestions (quizId : Int) (questions : List Question) :
    ∀ db db1 : Database, addQuestions db quizId questions = some db1 →
      db.catalogKeysValid → db1.catalogKeysValid := by
  induction questions with
  | nil => intro db db1 h hv; cases h; exact hv
  | cons q rest ih =>
    intro db db1 h hv
    unfold addQuestions at h
    split at h
    · cases h
    · rename_i b db2 hq
      exact ih db2 db1 h (catalogKeysValid_addQuestion db db2 quizId q b hq hv)

theorem catalogKeysValid_addQuiz (db db1 : Database) (quiz : Quiz) (b : Bool)
    (h : addQuiz db quiz = some (b, db1)) (hv : db.catalogKeysValid) :
    db1.catalogKeysValid := by
  unfold addQuiz at h
  split at h
  · cases h; exact hv
  · rename_i db2 hi
    simp only at h
    split at h
    · cases h
    · rename_i db3 hq
      cases h
      refine catalogKeysValid_addQuestions _ _ db2 db1 hq ?_
      unfold sqlInsertQuiz at hi
      split at hi
      · cases hi
        obtain ⟨h1, h2⟩ := hv
        refine ⟨?_, h2⟩
        intro q hq2
        have hq3 : q ∈ db.quizzes ++
            [(⟨db.quizzes_auto, quiz.title, quiz.description, none⟩ : QuizRow)] := hq2
        show q.id < db.quizzes_auto + 1
        rcases List.mem_append.mp hq3 with g | g
        · have := h1 q g; omega
        · simp only [List.mem_singleton] at g
          rw [g]
          show db.quizzes_auto < db.quizzes_auto + 1
          omega
      · cases hi

theorem recordQuizAttempt_catalog (db : Database) (s q v : Int) :
    (recordQuizAttempt db s q v).2.quizzes = db.quizzes ∧
    (recordQuizAttempt db s q v).2.questions = db.questions ∧
    (recordQuizAttempt db s q v).2.quizzes_auto = db.quizzes_auto ∧
    (recordQuizAttempt db s q v).2.questions_auto = db.questions_auto := by
  unfold recordQuizAttempt
  cases hu : sqlUpsertAttempt db s q v with
  | none => exact ⟨rfl, rfl, rfl, rfl⟩
  | some db1 =>
    rcases sqlUpsertAttempt_cases db db1 s q v hu with ⟨_, e⟩ | ⟨_, _, _, e⟩
    · subst e; exact ⟨rfl, rfl, rfl, rfl⟩
    · subst e; exact ⟨rfl, rfl, rfl, rfl⟩

theorem catalogKeysValid_step (db db1 : Database) (op : Op) (h : applyOp db op = some db1)
    (hv : db.catalogKeysValid) : db1.catalogKeysValid := by
  cases op with
  | registerUser username password role =>
    simp only [applyOp, Option.some.injEq] at h
    subst h
    rcases registerUser_cases db username password role with e | ⟨_, _, _, e⟩
    · rw [e]; exact hv
    · rw [e]; exact hv
  | deleteUserAccount userId role =>
    simp only [applyOp, Option.some.injEq] at h
    subst h
    rw [deleteUserAccount_database]
    exact hv
  | addQuiz quiz =>
    simp only [applyOp, Option.map_eq_some'] at h
    obtain ⟨⟨b, db2⟩, hq, e⟩ := h
    subst e
    exact catalogKeysValid_addQuiz db db2 quiz b hq hv
  | addQuestion quizId question =>
    simp only [applyOp, Option.map_eq_some'] at h
    obtain ⟨⟨b, db2⟩, hq, e⟩ := h
    subst e
    exact catalogKeysValid_addQuestion db db2 quizId question b hq hv
  | deleteQuiz quizId =>
    simp only [applyOp, Option.some.injEq] at h
    subst h
    exact ⟨fun q hq => hv.1 q (List.mem_of_mem_filter hq),
      fun r hr => hv.2 r (List.mem_of_mem_filter hr)⟩
  | deleteQuestion questionId =>
    simp only [applyOp, Option.some.injEq] at h
    subst h
    exact ⟨hv.1, fun r hr => hv.2 r (List.mem_of_mem_filter hr)⟩
  | recordQuizAttempt s q v =>
    simp only [applyOp, Option.some.injEq] at h
    subst h
    obtain ⟨e1, e2, e3, e4⟩ := recordQuizAttempt_catalog db s q v
    unfold Database.catalogKeysValid
    rw [e1, e2, e3, e4]
    exact hv

theorem runOps_catalogKeysValid (ops : List Op) :
    ∀ db db1 : Database, runOps db ops = some db1 →
      db.catalogKeysValid → db1.catalogKeysValid := by
  induction ops with
  | nil => intro db db1 h hv; cases h; exact hv
  | cons op rest ih =>
    intro db db1 h hv
    unfold runOps at h
    split at h
    · cases h
    · rename_i db2 ho
      exact ih db2 db1 h (catalogKeysValid_step db db2 op ho hv)

/-- The side conditions used for the catalog (the counters of `quizzes` and `questions`
above the ids in use, every question in an existing quiz, every attempt of an existing
user for an existing quiz) hold in every database reached from the empty one. -/
theorem reachable_catalogValid (ops : List Op) (db : Database)
    (h : runOps emptyDatabase ops = some db) : db.catalogKeysValid ∧ db.refsValid :=
  ⟨runOps_catalogKeysValid ops emptyDatabase db h (by simp [Database.catalogKeysValid, emptyDatabase]),
    runOps_refsValid ops emptyDatabase db h emptyDatabase_refsValid⟩

end LinkQuiz
